import Mathlib

/-!
# Verification of the gradi-proxy firmware core

Shallow embedding of the blink-detection + puff-sequencer firmware
(`esp_gradi-proxy` sketch).  Machine integers (`uint32_t`, `int`) are
modelled as `Nat` / `Int` with explicit reduction modulo `2^32` at the
places where the firmware relies on unsigned wraparound, and the
firmware's signed-cast comparison `(int32_t)(a - b) >= 0` is modelled
exactly.  The `millis()` clock is passed to each operation as an explicit
`now : Nat` argument.  `float` quantities of the detector are modelled
as real numbers, so those definitions are noncomputable; everything the
firmware computes over integers is an executable `def`.
-/

set_option linter.unusedVariables false

namespace Gradi

/-! ## uint32 arithmetic helpers -/

/-- `2^32`, the modulus of the firmware's `uint32_t` arithmetic. -/
def U32 : Nat := 4294967296

/-- `2^31`: threshold between nonnegative and negative `int32_t` values. -/
def I32HALF : Nat := 2147483648

/-- The value of the C expression `(uint32_t)(now - start)`: unsigned
wraparound subtraction.  `now` and `start` are kept as unbounded naturals
(the mathematical clock); the result agrees with the firmware's uint32
value. -/
def elapsedU32 (now start : Nat) : Nat :=
  ((((now : Int) - (start : Int)) % (U32 : Int)).toNat)

/-- The C condition `(int32_t)(now - x) >= 0`: wraparound-safe
"`now` is at or past deadline `x`". -/
def tdiffNN (now x : Nat) : Prop := elapsedU32 now x < I32HALF

instance (now x : Nat) : Decidable (tdiffNN now x) := by
  unfold tdiffNN; infer_instance

/-! ## Tunables and timing constants (verbatim from the sketch) -/

def DUTY_MAX : Int := 1023
def precharge_ms : Nat := 220
def puff_ms : Nat := 50
def guard_ms : Nat := 350
def duty_run : Int := 1000
def duty_idle : Int := 0
def ramp_time_ms : Nat := 60

def SEQ_FRAMES : Nat := 16
def FRAME_SLOTS : Nat := 4
def SLOT_DURATION_MS : Nat := 400
def FRAME_DURATION_MS : Nat := SLOT_DURATION_MS * FRAME_SLOTS
def SEQUENCE_LEAD_MS : Nat := 200

/-! ## Pump ramp (startRamp / updateRamp / pumpSetDuty) -/

/-- State owned by the pump-ramp subsystem, plus the last duty value
written to the PWM peripheral by `ledcWrite` (`pumpDuty`). -/
structure RampSt where
  rampActive : Bool
  rampFrom : Int
  rampTo : Int
  rampStart : Nat
  rampDur : Nat
  pumpDuty : Int
  deriving Repr, DecidableEq

/-- `pumpSetDuty`: clamp to `0..DUTY_MAX` and write the PWM duty. -/
def pumpSetDuty (duty : Int) (r : RampSt) : RampSt :=
  let d := if duty < 0 then 0 else duty
  let d := if DUTY_MAX < d then DUTY_MAX else d
  { r with pumpDuty := d }

/-- `startRamp(fromDuty, toDuty, durationMs)`; `now` stands for the
`millis()` call in the source. -/
def startRamp (fromDuty toDuty : Int) (durationMs : Nat) (now : Nat)
    (r : RampSt) : RampSt :=
  let r := { r with rampFrom := fromDuty, rampTo := toDuty,
                    rampDur := durationMs, rampStart := now,
                    rampActive := decide (0 < durationMs) && decide (fromDuty ≠ toDuty) }
  if 0 < durationMs ∧ fromDuty ≠ toDuty then r else pumpSetDuty toDuty r

/-- `updateRamp(now)`: linear interpolation of the pump duty.  The C
expression `(int32_t)(rampTo - rampFrom) * (int32_t)elapsed / (int32_t)rampDur`
uses C's truncating division, i.e. `Int.div`. -/
def updateRamp (now : Nat) (r : RampSt) : RampSt :=
  if r.rampActive = false then r
  else
    let elapsed := elapsedU32 now r.rampStart
    if r.rampDur ≤ elapsed then
      { pumpSetDuty r.rampTo r with rampActive := false }
    else
      pumpSetDuty
        (r.rampFrom + Int.tdiv ((r.rampTo - r.rampFrom) * (elapsed : Int)) (r.rampDur : Int)) r

/-! ## Puff state machine and sequence scheduling -/

inductive PuffState where
  | REST | PRECHARGE | PUFF | RECOVER
  deriving Repr, DecidableEq

/-- One precomputed frame event of the 16-frame schedule. -/
structure SequenceEvent where
  slot : Nat
  prechargeAt : Nat
  puffAt : Nat
  recoverAt : Nat
  guardDoneAt : Nat
  deriving Repr, DecidableEq

/-- Serial lines emitted by the sequencer. -/
inductive OutEvent where
  | seqStart (timeMs : Nat) (slots : List Nat)
  | seqBusy
  | seqEnd (timeMs : Nat)
  | seqCancel (timeMs : Nat)
  deriving Repr, DecidableEq

/-- The sequencer's global variables (schedule, run bookkeeping, puff
state machine, valve output, ramp). -/
structure SeqSt where
  events : List SequenceEvent
  sequenceActive : Bool
  sequenceIndex : Nat
  sequenceStartMs : Nat
  puffState : PuffState
  stateStart : Nat
  valve : Bool
  ramp : RampSt
  deriving Repr, DecidableEq

/-- `enterState(s, now)`: state entry actions (ramp targets, valve). -/
def enterState (st : PuffState) (now : Nat) (s : SeqSt) : SeqSt :=
  let s := { s with puffState := st, stateStart := now }
  match st with
  | .REST =>
      { s with ramp := startRamp duty_run duty_idle ramp_time_ms now s.ramp,
               valve := false }
  | .PRECHARGE =>
      { s with ramp := startRamp duty_idle duty_run ramp_time_ms now s.ramp }
  | .PUFF =>
      { s with valve := true }
  | .RECOVER =>
      { s with ramp := startRamp duty_run duty_idle ramp_time_ms now s.ramp,
               valve := false }

/-- `cancelSequence()`; `now` stands for the two `millis()` reads. -/
def cancelSequence (now : Nat) (s : SeqSt) : SeqSt × List OutEvent :=
  if s.sequenceActive = false then (s, [])
  else
    (enterState .REST now
      { s with sequenceActive := false, sequenceIndex := 0, sequenceStartMs := 0 },
     [.seqCancel now])

/-- `startProgrammedSequence()`.  The `random(0, FRAME_SLOTS)` draws are
modelled by the input stream `slots`, reduced into `0..FRAME_SLOTS-1` as
the RNG guarantees. -/
def startProgrammedSequence (now : Nat) (slots : Nat → Nat) (s : SeqSt) :
    SeqSt × List OutEvent :=
  if s.sequenceActive then (s, [.seqBusy])
  else
    let startMs := (now + SEQUENCE_LEAD_MS) % U32
    let events := (List.range SEQ_FRAMES).map (fun i =>
      let slot := slots i % FRAME_SLOTS
      let frameBase := (startMs + i * FRAME_DURATION_MS) % U32
      let puffAt := (frameBase + slot * SLOT_DURATION_MS) % U32
      let p1 := if precharge_ms ≤ puffAt then puffAt - precharge_ms else puffAt
      let prechargeAt := if p1 < frameBase then frameBase else p1
      let recoverAt := (puffAt + puff_ms) % U32
      let guardDoneAt := (recoverAt + guard_ms) % U32
      ⟨slot, prechargeAt, puffAt, recoverAt, guardDoneAt⟩)
    let s := { s with events := events, sequenceIndex := 0,
                      sequenceActive := true, sequenceStartMs := startMs }
    (enterState .REST now s, [.seqStart startMs (events.map (·.slot))])

/-- The puff state-machine section at the bottom of `loop()`. -/
def seqTick (now : Nat) (s : SeqSt) : SeqSt × List OutEvent :=
  let current : Option SequenceEvent :=
    if s.sequenceActive ∧ s.sequenceIndex < SEQ_FRAMES then
      some (s.events.getD s.sequenceIndex ⟨0, 0, 0, 0, 0⟩)
    else none
  match s.puffState with
  | .REST =>
      match current with
      | some ev =>
          if tdiffNN now ev.prechargeAt then (enterState .PRECHARGE now s, [])
          else (s, [])
      | none => (s, [])
  | .PRECHARGE =>
      match current with
      | none => (enterState .REST now s, [])
      | some ev =>
          if tdiffNN now ev.puffAt then (enterState .PUFF now s, [])
          else (s, [])
  | .PUFF =>
      match current with
      | none => (enterState .REST now s, [])
      | some ev =>
          if tdiffNN now ev.recoverAt then (enterState .RECOVER now s, [])
          else (s, [])
  | .RECOVER =>
      match current with
      | none => (enterState .REST now s, [])
      | some ev =>
          if tdiffNN now ev.guardDoneAt then
            let s := { s with sequenceIndex := s.sequenceIndex + 1 }
            if SEQ_FRAMES ≤ s.sequenceIndex then
              (enterState .REST now
                { s with sequenceActive := false, sequenceStartMs := 0,
                         sequenceIndex := 0 },
               [.seqEnd now])
            else (enterState .REST now s, [])
          else (s, [])

/-- One `loop()` iteration restricted to the parts that touch the
sequencer state: ramp service, then state-machine evaluation (the
sampling pipeline and telemetry do not read or write `SeqSt`). -/
def loopTick (now : Nat) (s : SeqSt) : SeqSt × List OutEvent :=
  seqTick now { s with ramp := updateRamp now s.ramp }

/-- Global-variable initial values at boot. -/
def seqInit : SeqSt :=
  { events := List.replicate SEQ_FRAMES ⟨0, 0, 0, 0, 0⟩
    sequenceActive := false
    sequenceIndex := 0
    sequenceStartMs := 0
    puffState := .REST
    stateStart := 0
    valve := false
    ramp := ⟨false, 0, 0, 0, 0, 0⟩ }

/-- End of `setup()`: valve off, duty 0, `enterState(REST, millis())`. -/
def bootState (t : Nat) : SeqSt := enterState .REST t seqInit

/-- Sequencer states reachable from boot under any interleaving of loop
ticks, START commands and STOP commands (sequence completions happen
inside `loopTick`). -/
inductive Reachable : SeqSt → Prop where
  | boot (t : Nat) : Reachable (bootState t)
  | tick {s : SeqSt} (now : Nat) : Reachable s → Reachable (loopTick now s).1
  | start {s : SeqSt} (now : Nat) (slots : Nat → Nat) :
      Reachable s → Reachable (startProgrammedSequence now slots s).1
  | stop {s : SeqSt} (now : Nat) : Reachable s → Reachable (cancelSequence now s).1

/-! ## Basic facts about `enterState` -/

@[simp] theorem enterState_sequenceActive (st : PuffState) (now : Nat) (s : SeqSt) :
    (enterState st now s).sequenceActive = s.sequenceActive := by
  cases st <;> rfl

@[simp] theorem enterState_sequenceIndex (st : PuffState) (now : Nat) (s : SeqSt) :
    (enterState st now s).sequenceIndex = s.sequenceIndex := by
  cases st <;> rfl

@[simp] theorem enterState_sequenceStartMs (st : PuffState) (now : Nat) (s : SeqSt) :
    (enterState st now s).sequenceStartMs = s.sequenceStartMs := by
  cases st <;> rfl

@[simp] theorem enterState_events (st : PuffState) (now : Nat) (s : SeqSt) :
    (enterState st now s).events = s.events := by
  cases st <;> rfl

@[simp] theorem enterState_puffState (st : PuffState) (now : Nat) (s : SeqSt) :
    (enterState st now s).puffState = st := by
  cases st <;> rfl

theorem enterState_valve (st : PuffState) (now : Nat) (s : SeqSt) :
    (enterState st now s).valve =
      (if st = .PUFF then true else if st = .PRECHARGE then s.valve else false) := by
  cases st <;> rfl

/-! ## C10: STOP with no active sequence is a complete no-op -/

/-- **C10.** When `sequenceActive` is false, `cancelSequence` emits
nothing and returns the state unchanged: puff state, ramp, active flag,
frame index, start time and schedule are all exactly as they were. -/
theorem cancel_inactive_noop (s : SeqSt) (now : Nat)
    (h : s.sequenceActive = false) : cancelSequence now s = (s, []) := by
  simp [cancelSequence, h]

/-- Witness for `cancel_inactive_noop` at the boot state. -/
theorem cancel_inactive_noop_witness :
    seqInit.sequenceActive = false ∧ cancelSequence 7 seqInit = (seqInit, []) :=
  ⟨rfl, cancel_inactive_noop seqInit 7 rfl⟩

/-! ## C7: START while a sequence is active is rejected and changes nothing -/

/-- Number of `SEQ START` lines in an output list. -/
def seqStartCount (l : List OutEvent) : Nat :=
  l.countP (fun e => match e with | .seqStart _ _ => true | _ => false)

/-- **C7.** A `START` received while a sequence is active returns the
state completely unchanged (schedule, frame index, active flag, start
time, puff state; no slots drawn) and reports `SEQ BUSY`; in the
double-START scenario from an idle sequencer, exactly one `SEQ START`
line is emitted in total. -/
theorem start_while_active_rejected :
    (∀ (s : SeqSt) (now : Nat) (slots : Nat → Nat), s.sequenceActive = true →
        startProgrammedSequence now slots s = (s, [OutEvent.seqBusy])) ∧
    (∀ (s : SeqSt) (n1 n2 : Nat) (sl1 sl2 : Nat → Nat), s.sequenceActive = false →
        startProgrammedSequence n2 sl2 (startProgrammedSequence n1 sl1 s).1 =
          ((startProgrammedSequence n1 sl1 s).1, [OutEvent.seqBusy]) ∧
        seqStartCount ((startProgrammedSequence n1 sl1 s).2 ++
            (startProgrammedSequence n2 sl2 (startProgrammedSequence n1 sl1 s).1).2) = 1) := by
  have hrej : ∀ (s : SeqSt) (now : Nat) (slots : Nat → Nat), s.sequenceActive = true →
      startProgrammedSequence now slots s = (s, [OutEvent.seqBusy]) := by
    intro s now slots h
    unfold startProgrammedSequence
    rw [if_pos h]
  refine ⟨hrej, ?_⟩
  · intro s n1 n2 sl1 sl2 h
    have h1 : (startProgrammedSequence n1 sl1 s).1.sequenceActive = true := by
      unfold startProgrammedSequence
      rw [if_neg (by simp [h])]
      simp
    have hbusy := hrej _ n2 sl2 h1
    refine ⟨hbusy, ?_⟩
    have hcount1 : seqStartCount (startProgrammedSequence n1 sl1 s).2 = 1 := by
      unfold startProgrammedSequence
      rw [if_neg (by simp [h])]
      simp [seqStartCount]
    rw [hbusy]
    simp only [seqStartCount, List.countP_append] at hcount1 ⊢
    rw [hcount1]
    rfl

/-- Witness for `start_while_active_rejected` on a concrete double-START. -/
theorem start_while_active_rejected_witness :
    seqInit.sequenceActive = false ∧
    (startProgrammedSequence 5 (fun _ => 2) (startProgrammedSequence 0 (fun _ => 1) seqInit).1 =
      ((startProgrammedSequence 0 (fun _ => 1) seqInit).1, [OutEvent.seqBusy]) ∧
     seqStartCount ((startProgrammedSequence 0 (fun _ => 1) seqInit).2 ++
        (startProgrammedSequence 5 (fun _ => 2)
          (startProgrammedSequence 0 (fun _ => 1) seqInit).1).2) = 1) :=
  ⟨rfl, start_while_active_rejected.2 seqInit 0 5 (fun _ => 1) (fun _ => 2) rfl⟩

/-! ## C1: the valve is open iff the puff state machine is in `PUFF` -/

theorem seqTick_valve_inv (now : Nat) (s : SeqSt)
    (h : s.valve = true ↔ s.puffState = PuffState.PUFF) :
    (seqTick now s).1.valve = true ↔ (seqTick now s).1.puffState = PuffState.PUFF := by
  by_cases hA : s.sequenceActive ∧ s.sequenceIndex < SEQ_FRAMES
  · cases hps : s.puffState <;>
      simp only [seqTick, hps, hA, if_true, ite_true] <;>
      (repeat' split) <;>
      simp_all [enterState_valve]
  · cases hps : s.puffState <;>
      simp only [seqTick, hps, hA, if_false, ite_false] <;>
      simp_all [enterState_valve]

/-- **C1.** In every reachable sequencer state, the valve output is open
iff the puff state machine is in `PUFF`. -/
theorem valve_open_iff_puff (s : SeqSt) (h : Reachable s) :
    s.valve = true ↔ s.puffState = PuffState.PUFF := by
  induction h with
  | boot t => simp [bootState, enterState_valve]
  | tick now hr ih => exact seqTick_valve_inv _ _ ih
  | start now slots hr ih =>
      rename_i s'
      by_cases ha : s'.sequenceActive
      · simp [startProgrammedSequence, ha]; exact ih
      · simp only [Bool.not_eq_true] at ha
        simp [startProgrammedSequence, ha, enterState_valve]
  | stop now hr ih =>
      rename_i s'
      by_cases ha : s'.sequenceActive
      · simp [cancelSequence, ha, enterState_valve]
      · simp only [Bool.not_eq_true] at ha
        simp [cancelSequence, ha]; exact ih

/-- Witness for `valve_open_iff_puff` at a concrete reachable state. -/
theorem valve_open_iff_puff_witness :
    Reachable (bootState 0) ∧
    ((bootState 0).valve = true ↔ (bootState 0).puffState = PuffState.PUFF) :=
  ⟨Reachable.boot 0, valve_open_iff_puff _ (Reachable.boot 0)⟩

/-! ## C9: ramp duty is monotone, bounded by its endpoints, and reaches
the target exactly -/

theorem elapsedU32_add (t e : Nat) (h : e < U32) : elapsedU32 (t + e) t = e := by
  unfold elapsedU32
  have h1 : ((t + e : Nat) : Int) - (t : Nat) = (e : Int) := by push_cast; ring
  rw [h1, Int.emod_eq_of_lt (by positivity) (by exact_mod_cast h)]
  simp

theorem pumpSetDuty_pumpDuty_of_range (d : Int) (r : RampSt)
    (h0 : 0 ≤ d) (h1 : d ≤ DUTY_MAX) : (pumpSetDuty d r).pumpDuty = d := by
  simp only [pumpSetDuty]
  rw [if_neg (by omega)]
  rw [if_neg (by omega)]

/-- The linear interpolation `rampFrom + (rampTo - rampFrom) * elapsed / rampDur`
computed by `updateRamp` (C truncating division). -/
def interp (A B : Int) (D e : Nat) : Int :=
  A + Int.tdiv ((B - A) * (e : Int)) (D : Int)

theorem interp_flip (A B : Int) (D e : Nat) :
    interp A B D e = A - Int.tdiv ((A - B) * (e : Int)) (D : Int) := by
  unfold interp
  rw [show (B - A) * (e : Int) = -((A - B) * (e : Int)) by ring, Int.neg_tdiv]
  ring

theorem interp_nonneg_piece (C : Int) (D e : Nat) (hC : 0 ≤ C) (hD : 0 < D)
    (he : e ≤ D) :
    0 ≤ Int.tdiv (C * (e : Int)) (D : Int) ∧
      Int.tdiv (C * (e : Int)) (D : Int) ≤ C := by
  have hD' : (0 : Int) < (D : Int) := by exact_mod_cast hD
  have hnn : (0 : Int) ≤ C * (e : Int) := mul_nonneg hC (by positivity)
  rw [Int.tdiv_eq_ediv hnn (le_of_lt hD')]
  refine ⟨Int.ediv_nonneg hnn (le_of_lt hD'), ?_⟩
  calc C * (e : Int) / (D : Int)
      ≤ C * (D : Int) / (D : Int) := by
        apply Int.ediv_le_ediv hD'
        exact mul_le_mul_of_nonneg_left (by exact_mod_cast he) hC
    _ = C := Int.mul_ediv_cancel C (by omega)

theorem interp_bounds (A B : Int) (D e : Nat) (hD : 0 < D) (he : e ≤ D) :
    min A B ≤ interp A B D e ∧ interp A B D e ≤ max A B := by
  rcases le_total A B with hAB | hBA
  · have h := interp_nonneg_piece (B - A) D e (by omega) hD he
    unfold interp
    constructor
    · calc min A B ≤ A := min_le_left A B
        _ ≤ A + Int.tdiv ((B - A) * (e : Int)) (D : Int) := by omega
    · have : A + Int.tdiv ((B - A) * (e : Int)) (D : Int) ≤ B := by omega
      calc A + Int.tdiv ((B - A) * (e : Int)) (D : Int) ≤ B := this
        _ ≤ max A B := le_max_right A B
  · have h := interp_nonneg_piece (A - B) D e (by omega) hD he
    rw [interp_flip]
    constructor
    · calc min A B ≤ B := min_le_right A B
        _ ≤ A - Int.tdiv ((A - B) * (e : Int)) (D : Int) := by omega
    · calc A - Int.tdiv ((A - B) * (e : Int)) (D : Int) ≤ A := by omega
        _ ≤ max A B := le_max_left A B

theorem interp_piece_mono (C : Int) (D : Nat) (hC : 0 ≤ C) (hD : 0 < D)
    {e1 e2 : Nat} (h : e1 ≤ e2) :
    Int.tdiv (C * (e1 : Int)) (D : Int) ≤ Int.tdiv (C * (e2 : Int)) (D : Int) := by
  have hD' : (0 : Int) < (D : Int) := by exact_mod_cast hD
  have h1 : (0 : Int) ≤ C * (e1 : Int) := mul_nonneg hC (by positivity)
  have h2 : (0 : Int) ≤ C * (e2 : Int) := mul_nonneg hC (by positivity)
  rw [Int.tdiv_eq_ediv h1 (le_of_lt hD'), Int.tdiv_eq_ediv h2 (le_of_lt hD')]
  exact Int.ediv_le_ediv hD' (mul_le_mul_of_nonneg_left (by exact_mod_cast h) hC)

theorem interp_mono (A B : Int) (D : Nat) (hD : 0 < D) {e1 e2 : Nat} (h : e1 ≤ e2) :
    (A ≤ B → interp A B D e1 ≤ interp A B D e2) ∧
    (B ≤ A → interp A B D e2 ≤ interp A B D e1) := by
  constructor
  · intro hAB
    unfold interp
    have := interp_piece_mono (B - A) D (by omega) hD h
    omega
  · intro hBA
    rw [interp_flip, interp_flip]
    have := interp_piece_mono (A - B) D (by omega) hD h
    omega

/-- The pump duty written by `updateRamp` at elapsed time `e` on an active
ramp from `A` to `B` over `D` ms started at `t`. -/
def rampDutyWritten (A B : Int) (t D e : Nat) : Int :=
  (updateRamp (t + e)
    { rampActive := true, rampFrom := A, rampTo := B,
      rampStart := t, rampDur := D, pumpDuty := A }).pumpDuty

theorem rampDutyWritten_eq (A B : Int) (t D e : Nat)
    (hA0 : 0 ≤ A) (hA1 : A ≤ DUTY_MAX) (hB0 : 0 ≤ B) (hB1 : B ≤ DUTY_MAX)
    (hD : 0 < D) (he : e < U32) :
    rampDutyWritten A B t D e = if D ≤ e then B else interp A B D e := by
  unfold rampDutyWritten updateRamp
  rw [if_neg (by simp)]
  simp only [elapsedU32_add t e he]
  split_ifs with h1
  · exact pumpSetDuty_pumpDuty_of_range B
      ({ rampActive := true, rampFrom := A, rampTo := B,
         rampStart := t, rampDur := D, pumpDuty := A } : RampSt) hB0 hB1
  · have hb := interp_bounds A B D e hD (by omega)
    exact pumpSetDuty_pumpDuty_of_range _ _
      (le_trans (le_min hA0 hB0) hb.1) (le_trans hb.2 (max_le hA1 hB1))

/-- **C9.** For an active ramp from duty `A` to duty `B` over duration
`D > 0` (with duties in the PWM range, as every ramp the firmware starts
is: `duty_idle = 0`, `duty_run = 1000`), the duty written by `updateRamp`
at elapsed time `e` is monotone in `e` (non-decreasing when `B ≥ A`,
non-increasing when `B ≤ A`), always lies between `A` and `B` inclusive,
and equals exactly `B` for every `e ≥ D`. -/
theorem ramp_monotone_bounded_reaches_target (A B : Int) (t D e1 e2 : Nat)
    (hA0 : 0 ≤ A) (hA1 : A ≤ DUTY_MAX) (hB0 : 0 ≤ B) (hB1 : B ≤ DUTY_MAX)
    (hD : 0 < D) (h12 : e1 ≤ e2) (he2 : e2 < U32) :
    ((A ≤ B → rampDutyWritten A B t D e1 ≤ rampDutyWritten A B t D e2) ∧
     (B ≤ A → rampDutyWritten A B t D e2 ≤ rampDutyWritten A B t D e1)) ∧
    (min A B ≤ rampDutyWritten A B t D e1 ∧ rampDutyWritten A B t D e1 ≤ max A B) ∧
    (D ≤ e1 → rampDutyWritten A B t D e1 = B) := by
  have he1 : e1 < U32 := lt_of_le_of_lt h12 he2
  rw [rampDutyWritten_eq A B t D e1 hA0 hA1 hB0 hB1 hD he1,
      rampDutyWritten_eq A B t D e2 hA0 hA1 hB0 hB1 hD he2] at *
  refine ⟨⟨?_, ?_⟩, ?_, ?_⟩
  · intro hAB
    split_ifs with h1 h2 h2
    · exact le_refl B
    · exact absurd (le_trans h1 h12) h2
    · have := (interp_bounds A B D e1 hD (by omega)).2
      rw [max_eq_right hAB] at this
      exact this
    · exact (interp_mono A B D hD h12).1 hAB
  · intro hBA
    split_ifs with h1 h2 h2
    · exact le_refl B
    · have := (interp_bounds A B D e1 hD (by omega)).1
      rw [min_eq_right hBA] at this
      exact this
    · exact absurd (le_trans h2 h12) h1
    · exact (interp_mono A B D hD h12).2 hBA
  · split_ifs with h1
    · exact ⟨min_le_right A B, le_max_right A B⟩
    · exact interp_bounds A B D e1 hD (by omega)
  · intro h1
    rw [if_pos h1]

/-- Witness for `ramp_monotone_bounded_reaches_target` on the firmware's
actual precharge ramp (`0 → 1000` over 60 ms). -/
theorem ramp_monotone_bounded_reaches_target_witness :
    ((0 ≤ (duty_idle : Int)) ∧ (duty_idle : Int) ≤ DUTY_MAX ∧
      0 ≤ (duty_run : Int) ∧ (duty_run : Int) ≤ DUTY_MAX ∧
      0 < ramp_time_ms ∧ 30 ≤ 60 ∧ 60 < U32) ∧
    (((duty_idle ≤ duty_run →
        rampDutyWritten duty_idle duty_run 0 ramp_time_ms 30 ≤
          rampDutyWritten duty_idle duty_run 0 ramp_time_ms 60) ∧
      (duty_run ≤ duty_idle →
        rampDutyWritten duty_idle duty_run 0 ramp_time_ms 60 ≤
          rampDutyWritten duty_idle duty_run 0 ramp_time_ms 30)) ∧
     (min duty_idle duty_run ≤ rampDutyWritten duty_idle duty_run 0 ramp_time_ms 30 ∧
      rampDutyWritten duty_idle duty_run 0 ramp_time_ms 30 ≤ max duty_idle duty_run) ∧
     (ramp_time_ms ≤ 30 → rampDutyWritten duty_idle duty_run 0 ramp_time_ms 30 = duty_run)) :=
  ⟨⟨by decide, by decide, by decide, by decide, by decide, by decide, by decide⟩,
    ramp_monotone_bounded_reaches_target duty_idle duty_run 0 ramp_time_ms 30 60
      (by decide) (by decide) (by decide) (by decide) (by decide) (by decide) (by decide)⟩

/-! ## Presence gate (`handlePresenceFSM`) and the C6 scenario -/

inductive PresenceState where
  | IDLE | PRESENCE
  deriving Repr, DecidableEq

def PRESENCE_ENTER : Nat := 10
def PRESENCE_EXIT : Nat := 5
def ENTER_HOLD_MS : Nat := 40
def EXIT_HOLD_MS : Nat := 300

/-- Presence gate state: the `presence` enum and its hold timer (`0` is
the firmware's "no hold running" sentinel). -/
structure PresenceSt where
  presence : PresenceState
  holdTimerMs : Nat
  deriving Repr, DecidableEq

/-- `handlePresenceFSM(now, prox)`.  The returned `Bool` records whether
the transition fired (i.e. `resetStatsAndConfidence` was invoked). -/
def handlePresenceFSM (now prox : Nat) (s : PresenceSt) : PresenceSt × Bool :=
  match s.presence with
  | .IDLE =>
      if PRESENCE_ENTER ≤ prox then
        let ht := if s.holdTimerMs = 0 then now else s.holdTimerMs
        if ENTER_HOLD_MS ≤ elapsedU32 now ht then
          ({ presence := .PRESENCE, holdTimerMs := 0 }, true)
        else ({ s with holdTimerMs := ht }, false)
      else ({ s with holdTimerMs := 0 }, false)
  | .PRESENCE =>
      if prox ≤ PRESENCE_EXIT then
        let ht := if s.holdTimerMs = 0 then now else s.holdTimerMs
        if EXIT_HOLD_MS ≤ elapsedU32 now ht then
          ({ presence := .IDLE, holdTimerMs := 0 }, true)
        else ({ s with holdTimerMs := ht }, false)
      else ({ s with holdTimerMs := 0 }, false)

/-- Feed a list of `(now, prox)` samples through the presence gate. -/
def presenceRun (s : PresenceSt) : List (Nat × Nat) → PresenceSt
  | [] => s
  | (t, x) :: rest => presenceRun (handlePresenceFSM t x s).1 rest

def presenceInit : PresenceSt := { presence := .IDLE, holdTimerMs := 0 }

/-- The C6 scenario input: raw `[3,3,12,12,12,12,12]` at 5 ms steps. -/
def presenceScenario : List (Nat × Nat) :=
  [(0, 3), (5, 3), (10, 12), (15, 12), (20, 12), (25, 12), (30, 12)]

/-- **C6, counterexample.**  On the scenario input the gate does *not*
transition to `PRESENCE` at the 4th consecutive qualifying sample
(`(25, 12)`, the 6th sample): it is still `IDLE` there, and still `IDLE`
after the whole 7-sample sequence, because only 15 ms of the required
40 ms hold have elapsed. -/
theorem presence_scenario_counterexample :
    (presenceRun presenceInit (presenceScenario.take 6)).presence = PresenceState.IDLE ∧
    (presenceRun presenceInit presenceScenario).presence = PresenceState.IDLE := by
  decide

/-- The scenario input extended so that the qualifying run reaches nine
consecutive samples (40 ms of hold): `[3,3]` then `12`s at `t = 10..50`. -/
def presenceScenarioLong : List (Nat × Nat) :=
  [(0, 3), (5, 3)] ++ (List.range 9).map (fun i => (10 + 5 * i, 12))

/-- **C6, amended.**  With enter-threshold 10 and enter-hold 40 ms at
5 ms steps, the gate is still `IDLE` after eight consecutive qualifying
samples and transitions to `PRESENCE` exactly at the ninth (`t = 50`,
when `now - holdStart ≥ 40`); the transition flag fires at that sample. -/
theorem presence_scenario_amended :
    (presenceRun presenceInit (presenceScenarioLong.take 10)).presence = PresenceState.IDLE ∧
    (presenceRun presenceInit presenceScenarioLong).presence = PresenceState.PRESENCE ∧
    (handlePresenceFSM 50 12 (presenceRun presenceInit (presenceScenarioLong.take 10))).2 = true := by
  decide

/-! ## C8: serial command reader (`handleSerialInput` / `processCommand`) -/

/-- The two recognised commands; `processCommand` invokes
`startProgrammedSequence` for `START` and `cancelSequence` for `STOP`. -/
inductive Cmd where
  | start | stop
  deriving Repr, DecidableEq

/-- The NUL byte: `handleSerialInput` terminates the buffer with it,
and `strcmp` stops at the first occurrence. -/
def NUL : Char := Char.ofNat 0

/-- `processCommand(cmd)`: `strcmp(cmd, "START") == 0` /
`strcmp(cmd, "STOP") == 0` on the NUL-terminated buffer.  `cmd` is the
list of bytes stored in `buffer[0..len)`; since `buffer[len]` is set to
NUL before the call, the C string `strcmp` compares is the stored bytes
up to the first NUL byte (all of them if none was stored). -/
def processCommand (cmd : List Char) : Option Cmd :=
  if cmd.takeWhile (fun c => c ≠ NUL) = "START".toList then some .start
  else if cmd.takeWhile (fun c => c ≠ NUL) = "STOP".toList then some .stop
  else none

/-- `sizeof(buffer) - 1`: the capacity of the 32-byte line buffer. -/
def SERIAL_BUF_CAP : Nat := 31

/-- `handleSerialInput()`: consume the available characters `cs`, with
`buf` the current line-buffer contents (`len` is `buf.length`).  Returns
the commands executed, in order. -/
def handleSerialInput (buf : List Char) : List Char → List Cmd
  | [] => []
  | c :: cs =>
      if c = '\n' ∨ c = '\r' then
        if 0 < buf.length then
          match processCommand buf with
          | some cmd => cmd :: handleSerialInput [] cs
          | none => handleSerialInput [] cs
        else handleSerialInput buf cs
      else
        if buf.length < SERIAL_BUF_CAP then handleSerialInput (buf ++ [c]) cs
        else handleSerialInput buf cs

/-- Spec-side line classifier: a line executes an action exactly when it
is the exact, case-sensitive text `START` or `STOP`. -/
def lineCmd (l : List Char) : Option Cmd :=
  if l = "START".toList then some .start
  else if l = "STOP".toList then some .stop
  else none

/-- Spec-side reader: split the input at `\n`/`\r` terminators (with
unbounded lines) and execute each terminated line that matches. -/
def specSerialAux (cur : List Char) : List Char → List Cmd
  | [] => []
  | c :: cs =>
      if c = '\n' ∨ c = '\r' then (lineCmd cur).toList ++ specSerialAux [] cs
      else specSerialAux (cur ++ [c]) cs

/-- The spec's account of the command protocol, starting on a fresh line. -/
def specSerial (cs : List Char) : List Cmd := specSerialAux [] cs

theorem processCommand_take (cur : List Char) (hnul : ∀ c ∈ cur, c ≠ NUL) :
    processCommand (cur.take SERIAL_BUF_CAP) = lineCmd cur := by
  have htw : (cur.take SERIAL_BUF_CAP).takeWhile (fun c => c ≠ NUL)
      = cur.take SERIAL_BUF_CAP :=
    List.takeWhile_eq_self_iff.mpr (by
      intro x hx
      simpa using hnul x (List.mem_of_mem_take hx))
  by_cases h : cur.length ≤ SERIAL_BUF_CAP
  · have htw' : cur.takeWhile (fun c => c ≠ NUL) = cur :=
      List.takeWhile_eq_self_iff.mpr (by
        intro x hx
        simpa using hnul x hx)
    rw [List.take_of_length_le h]
    unfold processCommand lineCmd
    rw [htw']
  · push_neg at h
    have hlen : (cur.take SERIAL_BUF_CAP).length = SERIAL_BUF_CAP := by
      rw [List.length_take]
      omega
    have hstart : ("START".toList).length = 5 := by decide
    have hstop : ("STOP".toList).length = 4 := by decide
    have hne1 : cur.take SERIAL_BUF_CAP ≠ "START".toList := by
      intro he
      have hx := congrArg List.length he
      rw [hlen, hstart] at hx
      exact absurd hx (by decide)
    have hne2 : cur.take SERIAL_BUF_CAP ≠ "STOP".toList := by
      intro he
      have hx := congrArg List.length he
      rw [hlen, hstop] at hx
      exact absurd hx (by decide)
    have hne3 : cur ≠ "START".toList := by
      intro he
      have hx := congrArg List.length he
      rw [hstart] at hx
      simp [SERIAL_BUF_CAP] at h
      omega
    have hne4 : cur ≠ "STOP".toList := by
      intro he
      have hx := congrArg List.length he
      rw [hstop] at hx
      simp [SERIAL_BUF_CAP] at h
      omega
    unfold processCommand lineCmd
    rw [htw, if_neg hne1, if_neg hne2, if_neg hne3, if_neg hne4]

theorem handleSerialInput_take (cs : List Char) : ∀ cur : List Char,
    (∀ c ∈ cur, c ≠ NUL) → (∀ c ∈ cs, c ≠ NUL) →
    handleSerialInput (cur.take SERIAL_BUF_CAP) cs = specSerialAux cur cs := by
  induction cs with
  | nil => intro cur _ _; rfl
  | cons c cs ih =>
      intro cur hcur hccs
      have hc : c ≠ NUL := hccs c (List.mem_cons_self c cs)
      have hcs : ∀ x ∈ cs, x ≠ NUL := fun x hx => hccs x (List.mem_cons_of_mem c hx)
      by_cases hterm : c = '\n' ∨ c = '\r'
      · simp only [handleSerialInput, specSerialAux, hterm, if_true, ite_true]
        rw [processCommand_take cur hcur]
        by_cases hnil : cur = []
        · subst hnil
          simp only [List.take_nil, List.length_nil, lt_irrefl, if_neg]
          have : lineCmd [] = none := by decide
          rw [this]
          simpa using ih [] (by simp) hcs
        · have hpos : 0 < (cur.take SERIAL_BUF_CAP).length := by
            rw [List.length_take]
            have : 0 < cur.length := List.length_pos.mpr hnil
            simp [SERIAL_BUF_CAP]
            omega
          rw [if_pos hpos]
          cases h : lineCmd cur with
          | none => simpa using ih [] (by simp) hcs
          | some cmd =>
              simp only [Option.toList, List.cons_append, List.nil_append]
              simpa using congrArg (cmd :: ·) (by simpa using ih [] (by simp) hcs)
      · simp only [handleSerialInput, specSerialAux, hterm, if_false, ite_false]
        have hcur' : ∀ x ∈ cur ++ [c], x ≠ NUL := by
          intro x hx
          rcases List.mem_append.mp hx with h1 | h1
          · exact hcur x h1
          · have hxc : x = c := by simpa using h1
            rw [hxc]
            exact hc
        by_cases hl : (cur.take SERIAL_BUF_CAP).length < SERIAL_BUF_CAP
        · rw [if_pos hl]
          rw [List.length_take] at hl
          have hcl : cur.length < SERIAL_BUF_CAP := by omega
          have hbeq : cur.take SERIAL_BUF_CAP ++ [c] = (cur ++ [c]).take SERIAL_BUF_CAP := by
            rw [List.take_of_length_le (le_of_lt hcl),
                List.take_of_length_le (by simp; omega)]
          rw [hbeq]
          exact ih (cur ++ [c]) hcur' hcs
        · rw [if_neg hl]
          rw [List.length_take] at hl
          have hcl : SERIAL_BUF_CAP ≤ cur.length := by omega
          have hbeq : cur.take SERIAL_BUF_CAP = (cur ++ [c]).take SERIAL_BUF_CAP := by
            rw [List.take_append_of_le_length hcl]
          rw [hbeq]
          exact ih (cur ++ [c]) hcur' hcs

/-- A terminated line whose buffered bytes are `START` followed by a NUL
byte and junk: not the exact text `START`, yet `strcmp` stops at the NUL
and matches. -/
def nulLineInput : List Char := "START".toList ++ [NUL, 'x', '\n']

/-- An over-long (45-character) terminated line `STOP` + NUL + junk: the
buffer keeps its first 31 bytes, whose C string is `STOP`. -/
def nulLongInput : List Char :=
  "STOP".toList ++ [NUL] ++ List.replicate 40 'z' ++ ['\n']

/-- **C8 counterexample.** The reader does *not* act only on the exact
lines `START`/`STOP`: fed the terminated line `START` + NUL + `x` — which
is neither `START` nor `STOP` — it executes a START command, because
`strcmp` compares the buffer only up to the first NUL byte; the spec-side
exact-match splitter executes nothing on the same stream.  Likewise an
over-long line `STOP` + NUL + 40 junk bytes executes a STOP command. -/
theorem serial_nul_line_counterexample :
    handleSerialInput [] nulLineInput = [Cmd.start] ∧
    specSerial nulLineInput = [] ∧
    "START".toList ++ [NUL, 'x'] ≠ "START".toList ∧
    "START".toList ++ [NUL, 'x'] ≠ "STOP".toList ∧
    handleSerialInput [] nulLongInput = [Cmd.stop] ∧
    specSerial nulLongInput = [] := by
  decide

/-- **C8 (amended).** For any input stream free of NUL bytes, the command
reader executes an action exactly for the terminated lines `START` and
`STOP` (case-sensitive exact match): from a fresh buffer it executes
exactly the commands of the spec-side unbounded line splitter, so any
other NUL-free line, including lines longer than the 31-character buffer,
is discarded without invoking an action and without corrupting later
commands (the buffer position is reset at each terminator).  A line
containing a NUL byte is instead acted on according to its prefix before
the first NUL, as `strcmp` stops there. -/
theorem serial_commands_nul_free (cs : List Char) (hnul : ∀ c ∈ cs, c ≠ NUL) :
    handleSerialInput [] cs = specSerial cs := by
  simpa using handleSerialInput_take cs [] (by simp) hnul

theorem serial_commands_nul_free_witness :
    (∀ c ∈ ("START\nnope\nSTOP\n".toList), c ≠ NUL) ∧
    handleSerialInput [] ("START\nnope\nSTOP\n".toList)
      = specSerial ("START\nnope\nSTOP\n".toList) :=
  ⟨by decide, serial_commands_nul_free _ (by decide)⟩

/-! ## C2: a started, uncancelled sequence runs exactly 16 full cycles -/

/-- Rank of a puff state within one frame cycle. -/
def rank : PuffState → Nat
  | .REST => 0
  | .PRECHARGE => 1
  | .PUFF => 2
  | .RECOVER => 3

/-- Progress measure of a sequence run: `4 * frame + rank` while active,
`4 * SEQ_FRAMES = 64` once the run is over. -/
def phi (s : SeqSt) : Nat :=
  if s.sequenceActive then 4 * s.sequenceIndex + rank s.puffState else 4 * SEQ_FRAMES

/-- Well-formedness maintained by the loop during a pure tick run: an
active run has a frame in range, and an inactive sequencer has been
parked in `REST`. -/
def Hgood (s : SeqSt) : Prop :=
  (s.sequenceActive = true → s.sequenceIndex < SEQ_FRAMES) ∧
  (s.sequenceActive = false → s.puffState = PuffState.REST)

/-- One observed loop iteration: pre-state, its `millis()` value,
post-state and emitted lines. -/
structure SStep where
  pre : SeqSt
  t : Nat
  post : SeqSt
  out : List OutEvent

/-- The list of steps of a tick run. -/
def seqSteps (s : SeqSt) : List Nat → List SStep
  | [] => []
  | t :: ts => ⟨s, t, (loopTick t s).1, (loopTick t s).2⟩ :: seqSteps (loopTick t s).1 ts

/-- Final state of a tick run. -/
def seqFinal (s : SeqSt) : List Nat → SeqSt
  | [] => s
  | t :: ts => seqFinal (loopTick t s).1 ts

/-- Number of steps whose puff state moved `a → b`. -/
def transCount (a b : PuffState) : List SStep → Nat
  | [] => 0
  | st :: l =>
      (if st.pre.puffState = a ∧ st.post.puffState = b then 1 else 0) + transCount a b l

/-- Frame indices whose `RECOVER → REST` completion fired, in order. -/
def completionsOf : List SStep → List Nat
  | [] => []
  | st :: l =>
      (if st.pre.puffState = PuffState.RECOVER ∧ st.post.puffState = PuffState.REST
       then [st.pre.sequenceIndex] else []) ++ completionsOf l

/-- All lines emitted during a run of steps. -/
def outsOf : List SStep → List OutEvent
  | [] => []
  | st :: l => st.out ++ outsOf l

/-- Number of `SEQ END` lines in an output list. -/
def seqEndCount (l : List OutEvent) : Nat :=
  l.countP (fun e => match e with | .seqEnd _ => true | _ => false)

theorem loopTick_cases (now : Nat) (s : SeqSt) (h : Hgood s) :
    Hgood (loopTick now s).1 ∧
    (((loopTick now s).1.puffState = s.puffState ∧
      (loopTick now s).1.sequenceIndex = s.sequenceIndex ∧
      (loopTick now s).1.sequenceActive = s.sequenceActive ∧
      phi (loopTick now s).1 = phi s ∧
      (loopTick now s).2 = []) ∨
     (phi (loopTick now s).1 = phi s + 1 ∧ s.sequenceActive = true ∧
      ((s.puffState = PuffState.REST ∧
        (loopTick now s).1.puffState = PuffState.PRECHARGE ∧
        (loopTick now s).2 = []) ∨
       (s.puffState = PuffState.PRECHARGE ∧
        (loopTick now s).1.puffState = PuffState.PUFF ∧
        (loopTick now s).2 = []) ∨
       (s.puffState = PuffState.PUFF ∧
        (loopTick now s).1.puffState = PuffState.RECOVER ∧
        (loopTick now s).2 = []) ∨
       (s.puffState = PuffState.RECOVER ∧
        (loopTick now s).1.puffState = PuffState.REST ∧
        ((s.sequenceIndex + 1 < SEQ_FRAMES ∧ (loopTick now s).2 = []) ∨
         (s.sequenceIndex + 1 = SEQ_FRAMES ∧
          (loopTick now s).2 = [OutEvent.seqEnd now])))))) := by
  obtain ⟨hg1, hg2⟩ := h
  by_cases hA : s.sequenceActive = true ∧ s.sequenceIndex < SEQ_FRAMES
  · obtain ⟨hact, hidx⟩ := hA
    cases hps : s.puffState with
    | REST =>
        by_cases hc : tdiffNN now ((s.events.getD s.sequenceIndex ⟨0, 0, 0, 0, 0⟩).prechargeAt)
        · have heq : loopTick now s =
              (enterState .PRECHARGE now { s with ramp := updateRamp now s.ramp }, []) := by
            unfold loopTick seqTick
            dsimp only
            rw [if_pos ⟨hact, hidx⟩, hps]
            dsimp only
            rw [if_pos hc]
          rw [heq]
          refine ⟨⟨fun _ => by simpa using hidx, fun hf => absurd hf (by simp [hact])⟩,
            Or.inr ⟨?_, hact, Or.inl ⟨rfl, by simp, rfl⟩⟩⟩
          simp [phi, hact, hps, rank]
        · have heq : loopTick now s = ({ s with ramp := updateRamp now s.ramp }, []) := by
            unfold loopTick seqTick
            dsimp only
            rw [if_pos ⟨hact, hidx⟩, hps]
            dsimp only
            rw [if_neg hc]
          rw [heq]
          exact ⟨⟨fun _ => hidx, fun hf => absurd hf (by simp [hact])⟩,
            Or.inl ⟨hps, rfl, rfl, rfl, rfl⟩⟩
    | PRECHARGE =>
        by_cases hc : tdiffNN now ((s.events.getD s.sequenceIndex ⟨0, 0, 0, 0, 0⟩).puffAt)
        · have heq : loopTick now s =
              (enterState .PUFF now { s with ramp := updateRamp now s.ramp }, []) := by
            unfold loopTick seqTick
            dsimp only
            rw [if_pos ⟨hact, hidx⟩, hps]
            dsimp only
            rw [if_pos hc]
          rw [heq]
          refine ⟨⟨fun _ => by simpa using hidx, fun hf => absurd hf (by simp [hact])⟩,
            Or.inr ⟨?_, hact, Or.inr (Or.inl ⟨rfl, by simp, rfl⟩)⟩⟩
          simp [phi, hact, hps, rank]
        · have heq : loopTick now s = ({ s with ramp := updateRamp now s.ramp }, []) := by
            unfold loopTick seqTick
            dsimp only
            rw [if_pos ⟨hact, hidx⟩, hps]
            dsimp only
            rw [if_neg hc]
          rw [heq]
          exact ⟨⟨fun _ => hidx, fun hf => absurd hf (by simp [hact])⟩,
            Or.inl ⟨hps, rfl, rfl, rfl, rfl⟩⟩
    | PUFF =>
        by_cases hc : tdiffNN now ((s.events.getD s.sequenceIndex ⟨0, 0, 0, 0, 0⟩).recoverAt)
        · have heq : loopTick now s =
              (enterState .RECOVER now { s with ramp := updateRamp now s.ramp }, []) := by
            unfold loopTick seqTick
            dsimp only
            rw [if_pos ⟨hact, hidx⟩, hps]
            dsimp only
            rw [if_pos hc]
          rw [heq]
          refine ⟨⟨fun _ => by simpa using hidx, fun hf => absurd hf (by simp [hact])⟩,
            Or.inr ⟨?_, hact, Or.inr (Or.inr (Or.inl ⟨rfl, by simp, rfl⟩))⟩⟩
          simp [phi, hact, hps, rank]
        · have heq : loopTick now s = ({ s with ramp := updateRamp now s.ramp }, []) := by
            unfold loopTick seqTick
            dsimp only
            rw [if_pos ⟨hact, hidx⟩, hps]
            dsimp only
            rw [if_neg hc]
          rw [heq]
          exact ⟨⟨fun _ => hidx, fun hf => absurd hf (by simp [hact])⟩,
            Or.inl ⟨hps, rfl, rfl, rfl, rfl⟩⟩
    | RECOVER =>
        by_cases hc : tdiffNN now ((s.events.getD s.sequenceIndex ⟨0, 0, 0, 0, 0⟩).guardDoneAt)
        · by_cases hfin : SEQ_FRAMES ≤ s.sequenceIndex + 1
          · have hidx16 : s.sequenceIndex + 1 = SEQ_FRAMES := le_antisymm (by omega) hfin
            have heq : loopTick now s =
                (enterState .REST now
                  { s with ramp := updateRamp now s.ramp, sequenceIndex := 0,
                           sequenceActive := false, sequenceStartMs := 0 },
                 [OutEvent.seqEnd now]) := by
              unfold loopTick seqTick
              dsimp only
              rw [if_pos ⟨hact, hidx⟩, hps]
              dsimp only
              rw [if_pos hc]
              rw [if_pos (by simpa using hfin)]
            rw [heq]
            refine ⟨⟨fun hf => absurd hf (by simp), fun _ => by simp⟩,
              Or.inr ⟨?_, hact, Or.inr (Or.inr (Or.inr ⟨rfl, by simp, Or.inr ⟨hidx16, rfl⟩⟩))⟩⟩
            have h15 : s.sequenceIndex = SEQ_FRAMES - 1 := by omega
            simp only [phi, enterState_sequenceActive, enterState_sequenceIndex,
              enterState_puffState, hact, hps, rank, h15, SEQ_FRAMES]
            norm_num
          · have heq : loopTick now s =
                (enterState .REST now
                  { s with ramp := updateRamp now s.ramp,
                           sequenceIndex := s.sequenceIndex + 1 },
                 []) := by
              unfold loopTick seqTick
              dsimp only
              rw [if_pos ⟨hact, hidx⟩, hps]
              dsimp only
              rw [if_pos hc]
              rw [if_neg (by simpa using hfin)]
            rw [heq]
            refine ⟨⟨fun _ => by simp; omega, fun hf => absurd hf (by simp [hact])⟩,
              Or.inr ⟨?_, hact, Or.inr (Or.inr (Or.inr ⟨rfl, by simp, Or.inl ⟨by omega, rfl⟩⟩))⟩⟩
            simp only [phi, enterState_sequenceActive, enterState_sequenceIndex,
              enterState_puffState, hact, hps, rank, if_true, ite_true]
            simp
            omega
        · have heq : loopTick now s = ({ s with ramp := updateRamp now s.ramp }, []) := by
            unfold loopTick seqTick
            dsimp only
            rw [if_pos ⟨hact, hidx⟩, hps]
            dsimp only
            rw [if_neg hc]
          rw [heq]
          exact ⟨⟨fun _ => hidx, fun hf => absurd hf (by simp [hact])⟩,
            Or.inl ⟨hps, rfl, rfl, rfl, rfl⟩⟩
  · -- no current frame: with `Hgood` this means the sequencer is inactive
    have hact : s.sequenceActive = false := by
      cases hcase : s.sequenceActive with
      | false => rfl
      | true => exact absurd ⟨hcase, hg1 hcase⟩ hA
    have hrest : s.puffState = PuffState.REST := hg2 hact
    have heq : loopTick now s = ({ s with ramp := updateRamp now s.ramp }, []) := by
      unfold loopTick seqTick
      dsimp only
      rw [if_neg (by simp [hact]), hrest]
    rw [heq]
    exact ⟨⟨fun hf => absurd hf (by simp [hact]), fun _ => hrest⟩,
      Or.inl ⟨rfl, rfl, rfl, rfl, rfl⟩⟩

theorem head_pair_zero {s1 s : SeqSt} {a b : PuffState} (hne : a ≠ b)
    (hpp : s1.puffState = s.puffState) :
    (if s.puffState = a ∧ s1.puffState = b then 1 else 0) = 0 := by
  rw [if_neg]
  rintro ⟨h1, h2⟩
  rw [hpp, h1] at h2
  exact hne h2

theorem head_pair_nil {s1 s : SeqSt} (hpp : s1.puffState = s.puffState) :
    (if s.puffState = PuffState.RECOVER ∧ s1.puffState = PuffState.REST
     then [s.sequenceIndex] else []) = ([] : List Nat) := by
  rw [if_neg]
  rintro ⟨h1, h2⟩
  rw [hpp, h1] at h2
  exact absurd h2 (by decide)

theorem range'_sub_cons {a b : Nat} (h : a < b) :
    List.range' a (b - a) = a :: List.range' (a + 1) (b - (a + 1)) := by
  have h1 : b - a = (b - (a + 1)) + 1 := by omega
  rw [h1]
  rfl

/-- The master accounting lemma for a pure tick run: against `phi`, every
transition kind, frame completion, and `SEQ END` emission is in exact
bijection with the `phi` values crossed by the run. -/
theorem seqRun_counts (ts : List Nat) : ∀ s : SeqSt, Hgood s →
    Hgood (seqFinal s ts) ∧
    phi s ≤ phi (seqFinal s ts) ∧
    transCount .REST .PRECHARGE (seqSteps s ts) =
      (List.range' (phi s) (phi (seqFinal s ts) - phi s)).countP
        (fun m => decide (m % 4 = 0)) ∧
    transCount .PRECHARGE .PUFF (seqSteps s ts) =
      (List.range' (phi s) (phi (seqFinal s ts) - phi s)).countP
        (fun m => decide (m % 4 = 1)) ∧
    transCount .PUFF .RECOVER (seqSteps s ts) =
      (List.range' (phi s) (phi (seqFinal s ts) - phi s)).countP
        (fun m => decide (m % 4 = 2)) ∧
    completionsOf (seqSteps s ts) =
      ((List.range' (phi s) (phi (seqFinal s ts) - phi s)).filter
        (fun m => decide (m % 4 = 3))).map (fun m => m / 4) ∧
    seqEndCount (outsOf (seqSteps s ts)) =
      (List.range' (phi s) (phi (seqFinal s ts) - phi s)).countP
        (fun m => decide (m = 63)) := by
  induction ts with
  | nil =>
      intro s h
      refine ⟨h, le_refl _, ?_, ?_, ?_, ?_, ?_⟩ <;>
        simp [seqFinal, seqSteps, transCount, completionsOf, outsOf, seqEndCount]
  | cons t ts ih =>
      intro s h
      obtain ⟨hg1, hcase⟩ := loopTick_cases t s h
      obtain ⟨ihg, ihle, ih0, ih1, ih2, ihc, ihe⟩ := ih (loopTick t s).1 hg1
      simp only [seqFinal, seqSteps, transCount, completionsOf, outsOf]
      rcases hcase with ⟨hpp, hpi, hpa, hphi, hout⟩ | ⟨hphi, hact, hsub⟩
      · -- non-advancing step: nothing counted, `phi` unchanged
        rw [← hphi]
        refine ⟨ihg, ihle, ?_, ?_, ?_, ?_, ?_⟩
        · rw [head_pair_zero (by decide) hpp, ih0]
          simp
        · rw [head_pair_zero (by decide) hpp, ih1]
          simp
        · rw [head_pair_zero (by decide) hpp, ih2]
          simp
        · rw [head_pair_nil hpp, ihc]
          rfl
        · rw [hout]
          simpa [seqEndCount] using ihe
      · -- advancing step: exactly the `phi s` cell is crossed
        have hlt : phi s < phi (seqFinal (loopTick t s).1 ts) := by omega
        have hcons := range'_sub_cons hlt
        rw [← hphi] at hcons
        have hidx : s.sequenceIndex < SEQ_FRAMES := h.1 hact
        have h16 : SEQ_FRAMES = 16 := rfl
        rcases hsub with ⟨hpre, hpost, hsout⟩ | ⟨hpre, hpost, hsout⟩ |
          ⟨hpre, hpost, hsout⟩ | ⟨hpre, hpost, hrec⟩
        · -- REST → PRECHARGE, residue 0
          have hphiv : phi s = 4 * s.sequenceIndex := by
            simp [phi, hact, hpre, rank]
          refine ⟨ihg, by omega, ?_, ?_, ?_, ?_, ?_⟩
          · rw [hcons, hpre, hpost]
            simp only [List.countP_cons]
            rw [ih0, decide_eq_true (p := phi s % 4 = 0) (by omega)]
            simp
            omega
          · rw [hcons, hpre, hpost]
            simp only [List.countP_cons]
            rw [ih1, decide_eq_false (p := phi s % 4 = 1) (by omega)]
            simp
          · rw [hcons, hpre, hpost]
            simp only [List.countP_cons]
            rw [ih2, decide_eq_false (p := phi s % 4 = 2) (by omega)]
            simp
          · rw [hcons, hpre, hpost]
            simp only [List.filter_cons]
            rw [ihc, decide_eq_false (p := phi s % 4 = 3) (by omega)]
            simp
          · rw [hcons, hsout]
            simp only [List.countP_cons]
            rw [decide_eq_false (p := phi s = 63) (by omega)]
            simpa [seqEndCount] using ihe
        · -- PRECHARGE → PUFF, residue 1
          have hphiv : phi s = 4 * s.sequenceIndex + 1 := by
            simp [phi, hact, hpre, rank]
          refine ⟨ihg, by omega, ?_, ?_, ?_, ?_, ?_⟩
          · rw [hcons, hpre, hpost]
            simp only [List.countP_cons]
            rw [ih0, decide_eq_false (p := phi s % 4 = 0) (by omega)]
            simp
          · rw [hcons, hpre, hpost]
            simp only [List.countP_cons]
            rw [ih1, decide_eq_true (p := phi s % 4 = 1) (by omega)]
            simp
            omega
          · rw [hcons, hpre, hpost]
            simp only [List.countP_cons]
            rw [ih2, decide_eq_false (p := phi s % 4 = 2) (by omega)]
            simp
          · rw [hcons, hpre, hpost]
            simp only [List.filter_cons]
            rw [ihc, decide_eq_false (p := phi s % 4 = 3) (by omega)]
            simp
          · rw [hcons, hsout]
            simp only [List.countP_cons]
            rw [decide_eq_false (p := phi s = 63) (by omega)]
            simpa [seqEndCount] using ihe
        · -- PUFF → RECOVER, residue 2
          have hphiv : phi s = 4 * s.sequenceIndex + 2 := by
            simp [phi, hact, hpre, rank]
          refine ⟨ihg, by omega, ?_, ?_, ?_, ?_, ?_⟩
          · rw [hcons, hpre, hpost]
            simp only [List.countP_cons]
            rw [ih0, decide_eq_false (p := phi s % 4 = 0) (by omega)]
            simp
          · rw [hcons, hpre, hpost]
            simp only [List.countP_cons]
            rw [ih1, decide_eq_false (p := phi s % 4 = 1) (by omega)]
            simp
          · rw [hcons, hpre, hpost]
            simp only [List.countP_cons]
            rw [ih2, decide_eq_true (p := phi s % 4 = 2) (by omega)]
            simp
            omega
          · rw [hcons, hpre, hpost]
            simp only [List.filter_cons]
            rw [ihc, decide_eq_false (p := phi s % 4 = 3) (by omega)]
            simp
          · rw [hcons, hsout]
            simp only [List.countP_cons]
            rw [decide_eq_false (p := phi s = 63) (by omega)]
            simpa [seqEndCount] using ihe
        · -- RECOVER → REST: frame completion, residue 3
          have hphiv : phi s = 4 * s.sequenceIndex + 3 := by
            simp [phi, hact, hpre, rank]
          refine ⟨ihg, by omega, ?_, ?_, ?_, ?_, ?_⟩
          · rw [hcons, hpre, hpost]
            simp only [List.countP_cons]
            rw [ih0, decide_eq_false (p := phi s % 4 = 0) (by omega)]
            simp
          · rw [hcons, hpre, hpost]
            simp only [List.countP_cons]
            rw [ih1, decide_eq_false (p := phi s % 4 = 1) (by omega)]
            simp
          · rw [hcons, hpre, hpost]
            simp only [List.countP_cons]
            rw [ih2, decide_eq_false (p := phi s % 4 = 2) (by omega)]
            simp
          · rw [hcons, hpre, hpost]
            simp only [List.filter_cons]
            rw [ihc, decide_eq_true (p := phi s % 4 = 3) (by omega)]
            have hdiv : s.sequenceIndex = phi s / 4 := by omega
            simp [hdiv]
          · rcases hrec with ⟨hlt16, hsout⟩ | ⟨heq16, hsout⟩
            · rw [hcons, hsout]
              simp only [List.countP_cons]
              rw [decide_eq_false (p := phi s = 63) (by omega)]
              simpa [seqEndCount] using ihe
            · rw [hcons, hsout]
              simp only [List.countP_cons]
              rw [decide_eq_true (p := phi s = 63) (by omega)]
              simp only [seqEndCount, List.countP_append] at ihe ⊢
              simp only [List.countP_cons, List.countP_nil]
              omega

theorem start_state_facts (s : SeqSt) (now : Nat) (slots : Nat → Nat)
    (h : s.sequenceActive = false) :
    (startProgrammedSequence now slots s).1.sequenceActive = true ∧
    (startProgrammedSequence now slots s).1.sequenceIndex = 0 ∧
    (startProgrammedSequence now slots s).1.puffState = PuffState.REST := by
  unfold startProgrammedSequence
  rw [if_neg (by simp [h])]
  simp

/-- **C2.** A sequence begun by an accepted `START` and never cancelled,
run under any loop-tick schedule whatsoever until it completes, passes
through exactly 16 `Rest→Precharge→Puff→Recover` cycles (16 transitions
of each kind), completes frame indices `0..15` each exactly once and in
order, and emits the `SEQ END` line exactly once. -/
theorem seq_sixteen_frames (s : SeqSt) (now : Nat) (slots : Nat → Nat) (ts : List Nat)
    (hidle : s.sequenceActive = false)
    (hdone : (seqFinal (startProgrammedSequence now slots s).1 ts).sequenceActive = false) :
    transCount .REST .PRECHARGE (seqSteps (startProgrammedSequence now slots s).1 ts) = 16 ∧
    transCount .PRECHARGE .PUFF (seqSteps (startProgrammedSequence now slots s).1 ts) = 16 ∧
    transCount .PUFF .RECOVER (seqSteps (startProgrammedSequence now slots s).1 ts) = 16 ∧
    completionsOf (seqSteps (startProgrammedSequence now slots s).1 ts) = List.range 16 ∧
    seqEndCount (outsOf (seqSteps (startProgrammedSequence now slots s).1 ts)) = 1 := by
  obtain ⟨ha0, hi0, hp0⟩ := start_state_facts s now slots hidle
  have hg0 : Hgood (startProgrammedSequence now slots s).1 := by
    constructor
    · intro _
      rw [hi0]
      decide
    · intro hf
      rw [ha0] at hf
      cases hf
  have hphi0 : phi (startProgrammedSequence now slots s).1 = 0 := by
    simp [phi, ha0, hi0, hp0, rank]
  obtain ⟨hgF, hle, h0, h1, h2, hc, he⟩ :=
    seqRun_counts ts (startProgrammedSequence now slots s).1 hg0
  have hphiF : phi (seqFinal (startProgrammedSequence now slots s).1 ts) = 64 := by
    simp [phi, hdone, SEQ_FRAMES]
  rw [hphi0, hphiF] at h0 h1 h2 hc he
  norm_num at h0 h1 h2 hc he
  rw [h0, h1, h2, hc, he]
  refine ⟨by decide, by decide, by decide, by decide, by decide⟩

set_option maxRecDepth 100000 in
/-- Witness for `seq_sixteen_frames`: from boot, `START` at `t = 0` with
all slots 0, then 64 loop iterations at `t = 30000` (past every
deadline) complete the sequence. -/
theorem seq_sixteen_frames_witness :
    (seqInit.sequenceActive = false ∧
      (seqFinal (startProgrammedSequence 0 (fun _ => 0) seqInit).1
        (List.replicate 64 30000)).sequenceActive = false) ∧
    (transCount .REST .PRECHARGE (seqSteps (startProgrammedSequence 0 (fun _ => 0) seqInit).1
        (List.replicate 64 30000)) = 16 ∧
     transCount .PRECHARGE .PUFF (seqSteps (startProgrammedSequence 0 (fun _ => 0) seqInit).1
        (List.replicate 64 30000)) = 16 ∧
     transCount .PUFF .RECOVER (seqSteps (startProgrammedSequence 0 (fun _ => 0) seqInit).1
        (List.replicate 64 30000)) = 16 ∧
     completionsOf (seqSteps (startProgrammedSequence 0 (fun _ => 0) seqInit).1
        (List.replicate 64 30000)) = List.range 16 ∧
     seqEndCount (outsOf (seqSteps (startProgrammedSequence 0 (fun _ => 0) seqInit).1
        (List.replicate 64 30000))) = 1) :=
  ⟨⟨rfl, by decide⟩,
    seq_sixteen_frames seqInit 0 (fun _ => 0) (List.replicate 64 30000) rfl (by decide)⟩

/-! ## Blink detector (`handleBlinkDetection` and friends)

The firmware computes the baseline statistics and z-scores in `float`;
they are modelled here as real numbers, so these definitions are
noncomputable (this is the only part of the embedding that is). -/

def SAMPLE_INTERVAL_MS : Nat := 5
noncomputable def Z_ENTER : ℝ := 2.0
noncomputable def Z_EXIT : ℝ := 1.0
def MIN_CROSS_MS : Nat := 20
def REFRACTORY_MS : Nat := 250
noncomputable def MIN_SIGMA_FLOOR : ℝ := 0.8
noncomputable def TAU_SEC : ℝ := 1.0
noncomputable def DT_SEC : ℝ := (SAMPLE_INTERVAL_MS : ℝ) / 1000
noncomputable def ALPHA : ℝ := DT_SEC / TAU_SEC
def WARMUP_MS : Nat := 600
def MIN_SAMPLES : Nat := 120
noncomputable def SLOPE_TAU_SEC : ℝ := 0.3
noncomputable def ALPHA_SLOPE : ℝ := DT_SEC / SLOPE_TAU_SEC
noncomputable def SLOPE_MAX : ℝ := 0.20
noncomputable def CONF_REQUIRED : ℝ := 0.70

/-- The detector's global variables (baseline stats, confidence inputs,
crossing state, refractory deadline, lifetime blink counter). -/
structure BlinkSt where
  statsInit : Bool
  mean : ℝ
  m2 : ℝ
  prevMean : ℝ
  slopeAbsEwma : ℝ
  conf : ℝ
  sampleCount : Nat
  devPolarity : Int
  beyondZ : Bool
  crossStartMs : Nat
  refractoryUntilMs : Nat
  presenceEnterMs : Nat
  blinkCount : Nat

/-- `clamp01`. -/
noncomputable def clamp01 (x : ℝ) : ℝ :=
  if x < 0 then 0 else if 1 < x then 1 else x

/-- Boot values of the detector globals. -/
def blinkInit : BlinkSt :=
  { statsInit := false, mean := 0, m2 := 0, prevMean := 0, slopeAbsEwma := 0,
    conf := 0, sampleCount := 0, devPolarity := 0, beyondZ := false,
    crossStartMs := 0, refractoryUntilMs := 0, presenceEnterMs := 0, blinkCount := 0 }

/-- `resetStatsAndConfidence(now)` (does not touch `blinkCount`). -/
def resetStatsAndConfidence (now : Nat) (s : BlinkSt) : BlinkSt :=
  { s with statsInit := false, mean := 0, m2 := 0, prevMean := 0,
           slopeAbsEwma := 0, conf := 0, sampleCount := 0, devPolarity := 0,
           beyondZ := false, crossStartMs := 0, refractoryUntilMs := 0,
           presenceEnterMs := now }

/-- `updateStats(x)`. -/
noncomputable def updateStats (x : Nat) (s : BlinkSt) : BlinkSt :=
  if s.statsInit = false then
    { s with statsInit := true, mean := (x : ℝ), m2 := (x : ℝ) * (x : ℝ),
             prevMean := (x : ℝ) }
  else
    let mean' := s.mean + ALPHA * ((x : ℝ) - s.mean)
    let m2' := s.m2 + ALPHA * ((x : ℝ) * (x : ℝ) - s.m2)
    let step := |mean' - s.prevMean|
    { s with mean := mean', m2 := m2',
             slopeAbsEwma := s.slopeAbsEwma + ALPHA_SLOPE * (step - s.slopeAbsEwma),
             prevMean := mean' }

/-- `currentSigma(floored)`. -/
noncomputable def currentSigma (floored : Bool) (s : BlinkSt) : ℝ :=
  let var := s.m2 - s.mean * s.mean
  let var := if var < 0 then 0 else var
  let sigma := Real.sqrt var
  if floored = true ∧ sigma < MIN_SIGMA_FLOOR then MIN_SIGMA_FLOOR else sigma

/-- `updateConfidence(now)`. -/
noncomputable def updateConfidence (now : Nat) (s : BlinkSt) : BlinkSt :=
  let t_conf := clamp01 ((elapsedU32 now s.presenceEnterMs : ℝ) / (WARMUP_MS : ℝ))
  let s_conf := clamp01 ((s.sampleCount : ℝ) / (MIN_SAMPLES : ℝ))
  let stab_conf := 1 - clamp01 (s.slopeAbsEwma / SLOPE_MAX)
  let conf := t_conf
  let conf := if s_conf < conf then s_conf else conf
  let conf := if stab_conf < conf then stab_conf else conf
  { s with conf := conf }

/-- The first three statements of `handleBlinkDetection`: stats update,
sample count increment, confidence update. -/
noncomputable def blinkPre (now x : Nat) (s : BlinkSt) : BlinkSt :=
  let s := updateStats x s
  let s := { s with sampleCount := s.sampleCount + 1 }
  updateConfidence now s

/-- `handleBlinkDetection(now, prox)`.  The returned `Bool` is true iff a
blink was confirmed (counter incremented, `BLINK` line emitted). -/
noncomputable def handleBlinkDetection (now x : Nat) (s : BlinkSt) : BlinkSt × Bool :=
  let s := blinkPre now x s
  if s.conf < CONF_REQUIRED then (s, false)
  else
    let sigma := currentSigma true s
    let dev : ℝ := (x : ℝ) - s.mean
    let zRise : ℝ := if 0 < sigma then dev / sigma else 0
    let zDrop : ℝ := -zRise
    if ¬ tdiffNN now s.refractoryUntilMs then
      ({ s with beyondZ := false, devPolarity := 0, crossStartMs := 0 }, false)
    else
      let enterRise := Z_ENTER ≤ zRise
      let enterDrop := Z_ENTER ≤ zDrop
      let exitRise := zRise ≤ Z_EXIT
      let exitDrop := zDrop ≤ Z_EXIT
      if enterRise ∨ enterDrop then
        let curPol : Int := if enterRise then 1 else -1
        if s.beyondZ = false then
          ({ s with beyondZ := true, devPolarity := curPol, crossStartMs := now }, false)
        else
          let s := if curPol ≠ s.devPolarity
                   then { s with devPolarity := curPol, crossStartMs := now }
                   else s
          if MIN_CROSS_MS ≤ elapsedU32 now s.crossStartMs then
            ({ s with blinkCount := s.blinkCount + 1,
                      refractoryUntilMs := (now + REFRACTORY_MS) % U32,
                      beyondZ := false, devPolarity := 0, crossStartMs := 0 }, true)
          else (s, false)
      else
        if s.beyondZ = true then
          let release := if s.devPolarity = 1 then exitRise else exitDrop
          if release then
            ({ s with beyondZ := false, devPolarity := 0, crossStartMs := 0 }, false)
          else (s, false)
        else (s, false)

/-! ### C5: the sigma used for z-scores is floored at 0.8 -/

/-- **C5.** `currentSigma true` — the sigma `handleBlinkDetection` feeds
into the z-score computation — equals
`max (sqrt (max 0 (m2 - mean^2))) 0.8`, and is therefore never below the
configured floor even when the tracked variance is zero or negative. -/
theorem sigma_floored (s : BlinkSt) :
    currentSigma true s =
      max (Real.sqrt (max 0 (s.m2 - s.mean * s.mean))) MIN_SIGMA_FLOOR ∧
    MIN_SIGMA_FLOOR ≤ currentSigma true s := by
  have hvar : (if s.m2 - s.mean * s.mean < 0 then 0 else s.m2 - s.mean * s.mean) =
      max 0 (s.m2 - s.mean * s.mean) := by
    rcases le_or_lt 0 (s.m2 - s.mean * s.mean) with h | h
    · rw [if_neg (not_lt.mpr h), max_eq_right h]
    · rw [if_pos h, max_eq_left (le_of_lt h)]
  have hmain : currentSigma true s =
      max (Real.sqrt (max 0 (s.m2 - s.mean * s.mean))) MIN_SIGMA_FLOOR := by
    unfold currentSigma
    dsimp only
    rw [hvar]
    split_ifs with h
    · rw [max_eq_right (le_of_lt h.2)]
    · have hge : MIN_SIGMA_FLOOR ≤ Real.sqrt (max 0 (s.m2 - s.mean * s.mean)) := by
        rw [not_and] at h
        exact not_lt.mp (h rfl)
      rw [max_eq_left hge]
  exact ⟨hmain, hmain ▸ le_max_right _ _⟩

/-! ### Structural facts about one detector step -/

@[simp] theorem updateStats_beyondZ (x : Nat) (s : BlinkSt) :
    (updateStats x s).beyondZ = s.beyondZ := by
  unfold updateStats; split <;> rfl

@[simp] theorem updateStats_devPolarity (x : Nat) (s : BlinkSt) :
    (updateStats x s).devPolarity = s.devPolarity := by
  unfold updateStats; split <;> rfl

@[simp] theorem updateStats_crossStartMs (x : Nat) (s : BlinkSt) :
    (updateStats x s).crossStartMs = s.crossStartMs := by
  unfold updateStats; split <;> rfl

@[simp] theorem updateStats_refractoryUntilMs (x : Nat) (s : BlinkSt) :
    (updateStats x s).refractoryUntilMs = s.refractoryUntilMs := by
  unfold updateStats; split <;> rfl

@[simp] theorem updateStats_blinkCount (x : Nat) (s : BlinkSt) :
    (updateStats x s).blinkCount = s.blinkCount := by
  unfold updateStats; split <;> rfl

theorem blinkPre_beyondZ (now x : Nat) (s : BlinkSt) :
    (blinkPre now x s).beyondZ = s.beyondZ := by
  unfold blinkPre updateConfidence
  simp

theorem blinkPre_devPolarity (now x : Nat) (s : BlinkSt) :
    (blinkPre now x s).devPolarity = s.devPolarity := by
  unfold blinkPre updateConfidence
  simp

theorem blinkPre_crossStartMs (now x : Nat) (s : BlinkSt) :
    (blinkPre now x s).crossStartMs = s.crossStartMs := by
  unfold blinkPre updateConfidence
  simp

theorem blinkPre_refractoryUntilMs (now x : Nat) (s : BlinkSt) :
    (blinkPre now x s).refractoryUntilMs = s.refractoryUntilMs := by
  unfold blinkPre updateConfidence
  simp

theorem blinkPre_blinkCount (now x : Nat) (s : BlinkSt) :
    (blinkPre now x s).blinkCount = s.blinkCount := by
  unfold blinkPre updateConfidence
  simp

theorem bool_ne_false {b : Bool} (h : ¬(b = false)) : b = true := by
  cases b
  · exact absurd rfl h
  · rfl

theorem elapsedU32_self (a : Nat) : elapsedU32 a a = 0 := by
  simp [elapsedU32]

/-- The crossing state is clear: not beyond threshold, no polarity, no
crossing start. -/
def idleCross (s : BlinkSt) : Prop :=
  s.beyondZ = false ∧ s.devPolarity = 0 ∧ s.crossStartMs = 0

set_option maxHeartbeats 1000000 in
/-- Exhaustive characterization of one `handleBlinkDetection` call as it
affects the crossing state, refractory deadline and blink counter:
either the detection state is untouched (gated or dwelling), or it is
forced idle without counting (refractory / release), or a crossing is
(re)started at `now`, or a blink is confirmed. -/
theorem handleBlinkDetection_cases (now x : Nat) (s : BlinkSt) :
    ((handleBlinkDetection now x s).2 = false ∧
     (handleBlinkDetection now x s).1.beyondZ = s.beyondZ ∧
     (handleBlinkDetection now x s).1.devPolarity = s.devPolarity ∧
     (handleBlinkDetection now x s).1.crossStartMs = s.crossStartMs ∧
     (handleBlinkDetection now x s).1.refractoryUntilMs = s.refractoryUntilMs ∧
     (handleBlinkDetection now x s).1.blinkCount = s.blinkCount) ∨
    ((handleBlinkDetection now x s).2 = false ∧
     idleCross (handleBlinkDetection now x s).1 ∧
     (handleBlinkDetection now x s).1.refractoryUntilMs = s.refractoryUntilMs ∧
     (handleBlinkDetection now x s).1.blinkCount = s.blinkCount) ∨
    ((handleBlinkDetection now x s).2 = false ∧
     tdiffNN now s.refractoryUntilMs ∧
     (handleBlinkDetection now x s).1.beyondZ = true ∧
     (handleBlinkDetection now x s).1.crossStartMs = now ∧
     (handleBlinkDetection now x s).1.refractoryUntilMs = s.refractoryUntilMs ∧
     (handleBlinkDetection now x s).1.blinkCount = s.blinkCount) ∨
    ((handleBlinkDetection now x s).2 = true ∧
     tdiffNN now s.refractoryUntilMs ∧
     s.beyondZ = true ∧
     MIN_CROSS_MS ≤ elapsedU32 now s.crossStartMs ∧
     idleCross (handleBlinkDetection now x s).1 ∧
     (handleBlinkDetection now x s).1.refractoryUntilMs = (now + REFRACTORY_MS) % U32 ∧
     (handleBlinkDetection now x s).1.blinkCount = s.blinkCount + 1) := by
  have hb := blinkPre_beyondZ now x s
  have hp := blinkPre_devPolarity now x s
  have hcr := blinkPre_crossStartMs now x s
  have hr := blinkPre_refractoryUntilMs now x s
  have hk := blinkPre_blinkCount now x s
  unfold handleBlinkDetection
  dsimp only
  split_ifs
  all_goals first
    | exact Or.inl ⟨rfl, hb, hp, hcr, hr, hk⟩
    | exact Or.inr (Or.inl ⟨rfl, ⟨rfl, rfl, rfl⟩, hr, hk⟩)
    | exact Or.inr (Or.inr (Or.inl ⟨rfl,
        by rw [← hr]; assumption, rfl, rfl, hr, hk⟩))
    | exact Or.inr (Or.inr (Or.inl ⟨rfl,
        by rw [← hr]; assumption,
        bool_ne_false (by assumption), rfl, hr, hk⟩))
    | exact absurd (by assumption : MIN_CROSS_MS ≤ elapsedU32 now now)
        (by rw [elapsedU32_self]; decide)
    | exact Or.inr (Or.inr (Or.inr ⟨rfl,
        by rw [← hr]; assumption,
        hb ▸ bool_ne_false (by assumption),
        hcr ▸ (by assumption : MIN_CROSS_MS ≤
          elapsedU32 now (blinkPre now x s).crossStartMs),
        ⟨rfl, rfl, rfl⟩, rfl, by rw [← hk]⟩))

/-! ### Detector runs -/

/-- One observed detector step: pre-state, sample `(t, x)`, post-state,
and whether a blink event was emitted. -/
structure BStep where
  pre : BlinkSt
  t : Nat
  x : Nat
  post : BlinkSt
  emitted : Bool

/-- Feed a list of `(now, prox)` samples through `handleBlinkDetection`. -/
noncomputable def blinkSteps (s : BlinkSt) : List (Nat × Nat) → List BStep
  | [] => []
  | (t, x) :: rest =>
      ⟨s, t, x, (handleBlinkDetection t x s).1, (handleBlinkDetection t x s).2⟩ ::
        blinkSteps (handleBlinkDetection t x s).1 rest

/-- Timestamps of the emitted `BLINK` events, in order. -/
def emitTimes (l : List BStep) : List Nat :=
  l.filterMap (fun st => if st.emitted = true then some st.t else none)

/-- Run invariant of the detector after processing samples up to time
`T`: an idle crossing is fully cleared; a live crossing started at a
processed time at or after the refractory deadline; the refractory
deadline never exceeds the last processed time plus the refractory
duration; and the clock is far from `uint32` wraparound. -/
def BInv (s : BlinkSt) (T : Nat) : Prop :=
  (s.beyondZ = false → s.devPolarity = 0 ∧ s.crossStartMs = 0) ∧
  (s.beyondZ = true → s.refractoryUntilMs ≤ s.crossStartMs ∧ s.crossStartMs ≤ T) ∧
  s.refractoryUntilMs ≤ T + REFRACTORY_MS ∧
  T < 2 ^ 30

theorem tdiffNN_small_iff {now r : Nat} (hn : now < I32HALF) (hr : r < I32HALF) :
    tdiffNN now r ↔ r ≤ now := by
  unfold I32HALF at hn hr
  unfold tdiffNN elapsedU32 U32 I32HALF
  omega

theorem elapsedU32_of_le {a b : Nat} (h : a ≤ b) (hlt : b - a < U32) :
    elapsedU32 b a = b - a := by
  unfold U32 at hlt
  unfold elapsedU32 U32
  omega

theorem refr_lt_I32HALF {s : BlinkSt} {T : Nat}
    (hrefr : s.refractoryUntilMs ≤ T + REFRACTORY_MS) (hT : T < 2 ^ 30) :
    s.refractoryUntilMs < I32HALF := by
  unfold I32HALF
  unfold REFRACTORY_MS at hrefr
  omega

theorem BInv_step {s : BlinkSt} {T now : Nat} (x : Nat) (hInv : BInv s T)
    (hT : T < now) (hn : now < 2 ^ 30) :
    BInv (handleBlinkDetection now x s).1 now := by
  obtain ⟨hidle, hbey, hrefr, hT30⟩ := hInv
  rcases handleBlinkDetection_cases now x s with
    ⟨hem, hbq, hpq, hcq, hrq, hkq⟩ | ⟨hem, hid, hrq, hkq⟩ |
    ⟨hem, ht, hbq, hcq, hrq, hkq⟩ | ⟨hem, ht, hbZ, hdw, hid, hrq, hkq⟩
  · refine ⟨?_, ?_, ?_, hn⟩
    · intro hf
      rw [hbq] at hf
      rw [hpq, hcq]
      exact hidle hf
    · intro htr
      rw [hbq] at htr
      rw [hcq, hrq]
      exact ⟨(hbey htr).1, le_trans (hbey htr).2 (le_of_lt hT)⟩
    · rw [hrq]; omega
  · refine ⟨fun _ => ⟨hid.2.1, hid.2.2⟩, ?_, ?_, hn⟩
    · intro htr
      rw [hid.1] at htr
      cases htr
    · rw [hrq]; omega
  · have hr_le : s.refractoryUntilMs ≤ now :=
      (tdiffNN_small_iff (by unfold I32HALF; omega)
        (refr_lt_I32HALF hrefr hT30)).mp ht
    refine ⟨?_, ?_, ?_, hn⟩
    · intro hf
      rw [hbq] at hf
      cases hf
    · intro _
      rw [hcq, hrq]
      exact ⟨hr_le, le_refl now⟩
    · rw [hrq]; omega
  · refine ⟨fun _ => ⟨hid.2.1, hid.2.2⟩, ?_, ?_, hn⟩
    · intro htr
      rw [hid.1] at htr
      cases htr
    · rw [hrq]
      exact le_trans (Nat.mod_le _ _) (le_refl _)

/-- The master refractory lemma over a detector run. -/
theorem blink_run_refractory (samples : List (Nat × Nat)) : ∀ (s : BlinkSt) (T : Nat),
    BInv s T →
    List.Chain' (· < ·) (T :: samples.map (·.1)) →
    (∀ p ∈ samples, p.1 < 2 ^ 30) →
    List.Pairwise (fun a b => a + REFRACTORY_MS ≤ b) (emitTimes (blinkSteps s samples)) ∧
    (∀ e ∈ emitTimes (blinkSteps s samples), s.refractoryUntilMs ≤ e ∧ T < e) ∧
    (∀ st ∈ blinkSteps s samples, ¬ tdiffNN st.t st.pre.refractoryUntilMs →
      st.emitted = false ∧ st.post.blinkCount = st.pre.blinkCount ∧
      st.post.beyondZ = false ∧ st.post.devPolarity = 0 ∧ st.post.crossStartMs = 0) := by
  induction samples with
  | nil =>
      intro s T _ _ _
      exact ⟨List.Pairwise.nil, by simp [emitTimes, blinkSteps], by simp [blinkSteps]⟩
  | cons p rest ih =>
      obtain ⟨t, x⟩ := p
      intro s T hInv hchain hbound
      have hchain2 := List.chain'_cons.mp hchain
      have hTt : T < t := hchain2.1
      have hb_t : t < 2 ^ 30 := hbound (t, x) (by simp)
      have hInv2 : BInv (handleBlinkDetection t x s).1 t := BInv_step x hInv hTt hb_t
      have hbound2 : ∀ q ∈ rest, q.1 < 2 ^ 30 := fun q hq => hbound q (by simp [hq])
      obtain ⟨ihP, ihLB, ihR⟩ :=
        ih (handleBlinkDetection t x s).1 t hInv2 (by simpa using hchain2.2) hbound2
      obtain ⟨hidle, hbey, hrefr, hT30⟩ := hInv
      have hpreidle : ¬ tdiffNN t s.refractoryUntilMs →
          s.beyondZ = false ∧ s.devPolarity = 0 ∧ s.crossStartMs = 0 := by
        intro hnr
        have hBf : s.beyondZ = false := by
          cases hEB : s.beyondZ
          · rfl
          · exfalso
            have hcb := hbey hEB
            have : s.refractoryUntilMs ≤ t := le_trans hcb.1 (le_trans hcb.2 (le_of_lt hTt))
            exact hnr ((tdiffNN_small_iff (by unfold I32HALF; omega)
              (refr_lt_I32HALF hrefr hT30)).mpr this)
        exact ⟨hBf, (hidle hBf).1, (hidle hBf).2⟩
      rcases handleBlinkDetection_cases t x s with
        ⟨hem, hbq, hpq, hcq, hrq, hkq⟩ | ⟨hem, hid, hrq, hkq⟩ |
        ⟨hem, ht, hbq, hcq, hrq, hkq⟩ | ⟨hem, ht, hbZ, hdw, hid, hrq, hkq⟩
      · -- D1: detection state untouched
        refine ⟨?_, ?_, ?_⟩
        · simpa [blinkSteps, emitTimes, hem] using ihP
        · intro e he
          rw [blinkSteps] at he
          simp only [emitTimes, List.filterMap_cons, hem] at he
          obtain ⟨h1, h2⟩ := ihLB e (by simpa [emitTimes] using he)
          rw [hrq] at h1
          exact ⟨h1, lt_trans hTt h2⟩
        · intro st hst hnr
          rw [blinkSteps] at hst
          rcases List.mem_cons.mp hst with rfl | hst2
          · obtain ⟨hBf, hP0, hC0⟩ := hpreidle hnr
            refine ⟨hem, hkq, ?_, ?_, ?_⟩
            · rw [hbq]; exact hBf
            · rw [hpq]; exact hP0
            · rw [hcq]; exact hC0
          · exact ihR st hst2 hnr
      · -- D2: forced idle
        refine ⟨?_, ?_, ?_⟩
        · simpa [blinkSteps, emitTimes, hem] using ihP
        · intro e he
          rw [blinkSteps] at he
          simp only [emitTimes, List.filterMap_cons, hem] at he
          obtain ⟨h1, h2⟩ := ihLB e (by simpa [emitTimes] using he)
          rw [hrq] at h1
          exact ⟨h1, lt_trans hTt h2⟩
        · intro st hst hnr
          rw [blinkSteps] at hst
          rcases List.mem_cons.mp hst with rfl | hst2
          · exact ⟨hem, hkq, hid.1, hid.2.1, hid.2.2⟩
          · exact ihR st hst2 hnr
      · -- D3: crossing started
        refine ⟨?_, ?_, ?_⟩
        · simpa [blinkSteps, emitTimes, hem] using ihP
        · intro e he
          rw [blinkSteps] at he
          simp only [emitTimes, List.filterMap_cons, hem] at he
          obtain ⟨h1, h2⟩ := ihLB e (by simpa [emitTimes] using he)
          rw [hrq] at h1
          exact ⟨h1, lt_trans hTt h2⟩
        · intro st hst hnr
          rw [blinkSteps] at hst
          rcases List.mem_cons.mp hst with rfl | hst2
          · exact absurd ht hnr
          · exact ihR st hst2 hnr
      · -- D4: confirmation at `t`
        have hr_le : s.refractoryUntilMs ≤ t :=
          (tdiffNN_small_iff (by unfold I32HALF; omega)
            (refr_lt_I32HALF hrefr hT30)).mp ht
        have hmod : (t + REFRACTORY_MS) % U32 = t + REFRACTORY_MS := by
          apply Nat.mod_eq_of_lt
          unfold U32 REFRACTORY_MS
          omega
        refine ⟨?_, ?_, ?_⟩
        · rw [blinkSteps]
          simp only [emitTimes, List.filterMap_cons, hem, if_true, ite_true]
          refine List.pairwise_cons.mpr ⟨?_, ihP⟩
          intro e he
          have := (ihLB e (by simpa [emitTimes] using he)).1
          rw [hrq, hmod] at this
          exact this
        · intro e he
          rw [blinkSteps] at he
          simp only [emitTimes, List.filterMap_cons, hem, if_true, ite_true] at he
          rcases List.mem_cons.mp he with rfl | he2
          · exact ⟨hr_le, hTt⟩
          · obtain ⟨h1, h2⟩ := ihLB e (by simpa [emitTimes] using he2)
            rw [hrq, hmod] at h1
            exact ⟨le_trans hr_le (by omega), lt_trans hTt h2⟩
        · intro st hst hnr
          rw [blinkSteps] at hst
          rcases List.mem_cons.mp hst with rfl | hst2
          · exact absurd ht hnr
          · exact ihR st hst2 hnr

theorem BInv_reset (t0 : Nat) : BInv (resetStatsAndConfidence t0 blinkInit) 0 := by
  refine ⟨fun _ => ⟨rfl, rfl⟩, fun htr => Bool.noConfusion htr, ?_, ?_⟩
  · exact Nat.zero_le _
  · decide

/-- **C3.** Over any detector run from a fresh
`resetStatsAndConfidence` state with strictly increasing sample times
(far from `uint32` wraparound): any two confirmed blink events are at
least the refractory duration (250 ms) apart, and every sample processed
while the refractory deadline has not yet passed is ignored entirely for
detection — no event, no counter change, crossing state idle after it. -/
theorem blink_refractory_spacing (t0 : Nat) (samples : List (Nat × Nat))
    (hchain : List.Chain' (· < ·) (0 :: samples.map (·.1)))
    (hbound : ∀ p ∈ samples, p.1 < 2 ^ 30) :
    List.Pairwise (fun a b => a + REFRACTORY_MS ≤ b)
      (emitTimes (blinkSteps (resetStatsAndConfidence t0 blinkInit) samples)) ∧
    ∀ st ∈ blinkSteps (resetStatsAndConfidence t0 blinkInit) samples,
      ¬ tdiffNN st.t st.pre.refractoryUntilMs →
        st.emitted = false ∧ st.post.blinkCount = st.pre.blinkCount ∧
        st.post.beyondZ = false ∧ st.post.devPolarity = 0 ∧
        st.post.crossStartMs = 0 := by
  obtain ⟨hP, _, hR⟩ :=
    blink_run_refractory samples (resetStatsAndConfidence t0 blinkInit) 0
      (BInv_reset t0) hchain hbound
  exact ⟨hP, hR⟩

/-- Witness for `blink_refractory_spacing` on a concrete sample trace. -/
theorem blink_refractory_spacing_witness :
    (List.Chain' (· < ·) (0 :: ([(5, 3), (10, 3)] : List (Nat × Nat)).map (·.1)) ∧
     ∀ p ∈ ([(5, 3), (10, 3)] : List (Nat × Nat)), p.1 < 2 ^ 30) ∧
    (List.Pairwise (fun a b => a + REFRACTORY_MS ≤ b)
      (emitTimes (blinkSteps (resetStatsAndConfidence 0 blinkInit) [(5, 3), (10, 3)])) ∧
     ∀ st ∈ blinkSteps (resetStatsAndConfidence 0 blinkInit) [(5, 3), (10, 3)],
       ¬ tdiffNN st.t st.pre.refractoryUntilMs →
         st.emitted = false ∧ st.post.blinkCount = st.pre.blinkCount ∧
         st.post.beyondZ = false ∧ st.post.devPolarity = 0 ∧
         st.post.crossStartMs = 0) :=
  ⟨⟨List.Chain.cons (by decide) (List.Chain.cons (by decide) List.Chain.nil), by decide⟩,
    blink_refractory_spacing 0 [(5, 3), (10, 3)]
      (List.Chain.cons (by decide) (List.Chain.cons (by decide) List.Chain.nil))
      (by decide)⟩

/-! ### C4: a blink is counted only after a sustained same-polarity dwell -/

/-- Every step in `l` still carries the live crossing `(p, c)`. -/
def carriesAll (l : List BStep) (p : Int) (c : Nat) : Prop :=
  ∀ su ∈ l, su.pre.beyondZ = true ∧ su.pre.devPolarity = p ∧ su.pre.crossStartMs = c

theorem blink_no_emit_no_count (samples : List (Nat × Nat)) : ∀ s : BlinkSt,
    ∀ st ∈ blinkSteps s samples, st.emitted = false →
      st.post.blinkCount = st.pre.blinkCount := by
  induction samples with
  | nil =>
      intro s st hst
      simp [blinkSteps] at hst
  | cons p rest ih =>
      obtain ⟨t, x⟩ := p
      intro s st hst hne
      rw [blinkSteps] at hst
      rcases List.mem_cons.mp hst with rfl | h2
      · rcases handleBlinkDetection_cases t x s with
          ⟨hem, _, _, _, _, hkq⟩ | ⟨hem, _, _, hkq⟩ |
          ⟨hem, _, _, _, _, hkq⟩ | ⟨hem, _, _, _, _, _, hkq⟩
        · exact hkq
        · exact hkq
        · exact hkq
        · have hne2 : (handleBlinkDetection t x s).2 = false := hne
          rw [hem] at hne2
          cases hne2
      · exact ih (handleBlinkDetection t x s).1 st h2 hne

/-- The crossing-history lemma: every emission's crossing either started
at a step inside the run, or was already live in the run's start state;
in both forms it persisted unreleased and with the same polarity through
every intervening sample. -/
theorem blink_cross_history (samples : List (Nat × Nat)) : ∀ (s : BlinkSt) (T : Nat),
    BInv s T →
    List.Chain' (· < ·) (T :: samples.map (·.1)) →
    (∀ p ∈ samples, p.1 < 2 ^ 30) →
    ∀ l1 st l2, blinkSteps s samples = l1 ++ st :: l2 → st.emitted = true →
      st.pre.beyondZ = true ∧
      st.post.blinkCount = st.pre.blinkCount + 1 ∧
      st.pre.crossStartMs + MIN_CROSS_MS ≤ st.t ∧
      ((∃ l1a stj l1b, l1 = l1a ++ stj :: l1b ∧
          stj.t = st.pre.crossStartMs ∧
          stj.post.beyondZ = true ∧ stj.post.devPolarity = st.pre.devPolarity ∧
          stj.post.crossStartMs = st.pre.crossStartMs ∧
          carriesAll (l1b ++ [st]) st.pre.devPolarity st.pre.crossStartMs) ∨
       (s.beyondZ = true ∧ s.devPolarity = st.pre.devPolarity ∧
        s.crossStartMs = st.pre.crossStartMs ∧
        carriesAll (l1 ++ [st]) st.pre.devPolarity st.pre.crossStartMs)) := by
  induction samples with
  | nil =>
      intro s T _ _ _ l1 st l2 hsteps _
      rw [blinkSteps] at hsteps
      exact absurd hsteps (by simp)
  | cons q rest ih =>
      obtain ⟨t, x⟩ := q
      intro s T hInv hchain hbound l1 st l2 hsteps hemit
      have hchain2 := List.chain'_cons.mp hchain
      have hTt : T < t := hchain2.1
      have hb_t : t < 2 ^ 30 := hbound (t, x) (by simp)
      have hInv2 : BInv (handleBlinkDetection t x s).1 t := BInv_step x hInv hTt hb_t
      have hbound2 : ∀ q2 ∈ rest, q2.1 < 2 ^ 30 := fun q2 hq => hbound q2 (by simp [hq])
      obtain ⟨hidle, hbey, hrefr, hT30⟩ := hInv
      rw [blinkSteps] at hsteps
      cases l1 with
      | nil =>
          simp only [List.nil_append] at hsteps
          obtain ⟨hh, hl2⟩ := List.cons_eq_cons.mp hsteps
          subst hl2
          rw [← hh] at hemit ⊢
          rcases handleBlinkDetection_cases t x s with
            ⟨hem, _, _, _, _, _⟩ | ⟨hem, _, _, _⟩ |
            ⟨hem, _, _, _, _, _⟩ | ⟨hem, ht, hbZ, hdw, hid, hrq, hkq⟩
          · have h2 : (handleBlinkDetection t x s).2 = true := hemit
            rw [hem] at h2
            cases h2
          · have h2 : (handleBlinkDetection t x s).2 = true := hemit
            rw [hem] at h2
            cases h2
          · have h2 : (handleBlinkDetection t x s).2 = true := hemit
            rw [hem] at h2
            cases h2
          · have hcT : s.crossStartMs ≤ T := (hbey hbZ).2
            have hel : elapsedU32 t s.crossStartMs = t - s.crossStartMs := by
              apply elapsedU32_of_le (by omega)
              unfold U32
              omega
            have hmc : MIN_CROSS_MS = 20 := rfl
            refine ⟨hbZ, hkq, ?_, Or.inr ⟨hbZ, rfl, rfl, ?_⟩⟩
            · show s.crossStartMs + MIN_CROSS_MS ≤ t
              rw [hel] at hdw
              omega
            · intro su hsu
              rcases List.mem_singleton.mp hsu with rfl
              exact ⟨hbZ, rfl, rfl⟩
      | cons h1 l1' =>
          simp only [List.cons_append] at hsteps
          obtain ⟨hh, htail⟩ := List.cons_eq_cons.mp hsteps
          subst hh
          obtain ⟨c1, c2, c3, chist⟩ :=
            ih (handleBlinkDetection t x s).1 t hInv2 (by simpa using hchain2.2)
              hbound2 l1' st l2 htail hemit
          refine ⟨c1, c2, c3, ?_⟩
          rcases chist with ⟨l1a, stj, l1b, hdec, hstj1, hstj2, hstj3, hstj4, hcarr⟩ |
            ⟨hsb, hsp, hsc, hcarr⟩
          · refine Or.inl ⟨(⟨s, t, x, (handleBlinkDetection t x s).1,
                (handleBlinkDetection t x s).2⟩ : BStep) :: l1a, stj, l1b, ?_,
                hstj1, hstj2, hstj3, hstj4, hcarr⟩
            rw [hdec]
            rfl
          · rcases handleBlinkDetection_cases t x s with
              ⟨hem, hbq, hpq, hcq, hrq, hkq⟩ | ⟨hem, hid, hrq, hkq⟩ |
              ⟨hem, ht, hbq, hcq, hrq, hkq⟩ | ⟨hem, ht, hbZ, hdw, hid, hrq, hkq⟩
            · -- head left the crossing untouched: extend to `s`
              refine Or.inr ⟨hbq ▸ hsb, hpq ▸ hsp, hcq ▸ hsc, ?_⟩
              intro su hsu
              rcases List.mem_cons.mp hsu with rfl | hsu2
              · exact ⟨hbq ▸ hsb, hpq ▸ hsp, hcq ▸ hsc⟩
              · exact hcarr su hsu2
            · rw [hid.1] at hsb
              cases hsb
            · -- head started the crossing at `t`
              refine Or.inl ⟨[], (⟨s, t, x, (handleBlinkDetection t x s).1,
                  (handleBlinkDetection t x s).2⟩ : BStep), l1', by simp, ?_,
                  hbq, hsp, hsc, hcarr⟩
              exact hcq ▸ hsc
            · rw [hid.1] at hsb
              cases hsb

/-- **C4.** The confirmed-blink counter increments only at an emission,
and every emission at time `t` closed off a crossing that started at an
actual earlier sample time `t0 = crossStartMs` with `t - t0 ≥ 20 ms`,
and that stayed live — never released, with the detector holding the
same polarity and the same crossing start — through every sample
processed from that start to the confirmation. -/
theorem blink_dwell_required (t0 : Nat) (samples : List (Nat × Nat))
    (hchain : List.Chain' (· < ·) (0 :: samples.map (·.1)))
    (hbound : ∀ p ∈ samples, p.1 < 2 ^ 30) :
    (∀ st ∈ blinkSteps (resetStatsAndConfidence t0 blinkInit) samples,
       st.emitted = false → st.post.blinkCount = st.pre.blinkCount) ∧
    (∀ l1 st l2,
       blinkSteps (resetStatsAndConfidence t0 blinkInit) samples = l1 ++ st :: l2 →
       st.emitted = true →
       st.pre.beyondZ = true ∧
       st.post.blinkCount = st.pre.blinkCount + 1 ∧
       st.pre.crossStartMs + MIN_CROSS_MS ≤ st.t ∧
       ∃ l1a stj l1b, l1 = l1a ++ stj :: l1b ∧
         stj.t = st.pre.crossStartMs ∧
         stj.post.beyondZ = true ∧ stj.post.devPolarity = st.pre.devPolarity ∧
         stj.post.crossStartMs = st.pre.crossStartMs ∧
         carriesAll (l1b ++ [st]) st.pre.devPolarity st.pre.crossStartMs) := by
  refine ⟨blink_no_emit_no_count samples _, ?_⟩
  intro l1 st l2 hsteps hemit
  obtain ⟨c1, c2, c3, chist⟩ :=
    blink_cross_history samples (resetStatsAndConfidence t0 blinkInit) 0
      (BInv_reset t0) hchain hbound l1 st l2 hsteps hemit
  refine ⟨c1, c2, c3, ?_⟩
  rcases chist with h | ⟨hsb, _, _, _⟩
  · exact h
  · exact Bool.noConfusion hsb

/-- Witness for `blink_dwell_required` on a concrete sample trace. -/
theorem blink_dwell_required_witness :
    (List.Chain' (· < ·) (0 :: ([(5, 7), (10, 7)] : List (Nat × Nat)).map (·.1)) ∧
     ∀ p ∈ ([(5, 7), (10, 7)] : List (Nat × Nat)), p.1 < 2 ^ 30) ∧
    ((∀ st ∈ blinkSteps (resetStatsAndConfidence 0 blinkInit) [(5, 7), (10, 7)],
        st.emitted = false → st.post.blinkCount = st.pre.blinkCount) ∧
     (∀ l1 st l2,
        blinkSteps (resetStatsAndConfidence 0 blinkInit) [(5, 7), (10, 7)] = l1 ++ st :: l2 →
        st.emitted = true →
        st.pre.beyondZ = true ∧
        st.post.blinkCount = st.pre.blinkCount + 1 ∧
        st.pre.crossStartMs + MIN_CROSS_MS ≤ st.t ∧
        ∃ l1a stj l1b, l1 = l1a ++ stj :: l1b ∧
          stj.t = st.pre.crossStartMs ∧
          stj.post.beyondZ = true ∧ stj.post.devPolarity = st.pre.devPolarity ∧
          stj.post.crossStartMs = st.pre.crossStartMs ∧
          carriesAll (l1b ++ [st]) st.pre.devPolarity st.pre.crossStartMs)) :=
  ⟨⟨List.Chain.cons (by decide) (List.Chain.cons (by decide) List.Chain.nil), by decide⟩,
    blink_dwell_required 0 [(5, 7), (10, 7)]
      (List.Chain.cons (by decide) (List.Chain.cons (by decide) List.Chain.nil))
      (by decide)⟩

end Gradi